import Mathlib

/-!
Verification development for the sleep-code core relay daemon.

This file gives a shallow embedding of the daemon's `SessionManager`
(`src/src/slack/session-manager.ts`), the Discord permission-request handler
(`createPermissionRequestHandler`) and the Discord AskUserQuestion
answer-collection helpers (`src/src/discord/state.ts`,
`src/src/discord/interactions/ask-question.ts`), and proves or refutes the
frozen specification claims about them.

Conventions of the embedding:
* JavaScript `Map`s are association lists with unique keys; `Map.set` replaces
  an existing binding in place (preserving insertion order) or appends a new
  one, `Map.delete` removes the binding, mirroring JS insertion-order
  semantics.  JavaScript `Set`s of strings are lists without duplicates kept
  in insertion order.
* File contents are modelled as `List Char` at byte granularity (one `Char`
  per byte); `Buffer.byteLength` of such content is its list length.  The
  UTF-8 decode/encode round trip of the implementation is the identity in
  this model.
* The MD5 `hash` function from node's crypto library and `JSON.parse` of
  event-log lines are external library functions; the model is parameterised
  over them (`hash : String → String`, `parse : String → Option LogRecord`).
* Socket writes are modelled as emitted `Write` records (socket, delay in
  milliseconds, frame); the happy path of `socket.write` always succeeds.
  The one write failure the spec names (the `sendInput` failure teardown) is
  modelled explicitly by a `writeOk` flag on input events.
* Asynchronous permission-handler resolution is modelled by a
  `HandlerOutcome`: the handler either resolves immediately, rejects
  (throws), or stays pending, in which case the adapter's later decision
  arrives as a separate `adapterDecision` event.
-/

namespace SleepCode

/-- `MAX_SEEN_MESSAGES` from session-manager.ts: cap of the per-session LRU
seen-set used for deduplication. -/
def MAX_SEEN_MESSAGES : Nat := 10000

/-- Session status, `'running' | 'idle' | 'ended'`. -/
inductive Status where
  | running
  | idle
  | ended
deriving DecidableEq

/-- A socket (connection) identity.  The implementation compares socket
objects by reference; we model the identity as a number. -/
abbrev SocketId := Nat

/-! ## Small JavaScript string helpers (modelled on `List Char`) -/

/-- Characters of a JS string after `String.prototype.trim()`:
whitespace stripped from both ends. -/
def trimChars (l : List Char) : List Char :=
  ((l.dropWhile Char.isWhitespace).reverse.dropWhile Char.isWhitespace).reverse

/-- JS `s.trim()`. -/
def jsTrim (s : String) : String := ⟨trimChars s.data⟩

/-- JS `s.slice(0, n)`. -/
def jsTake (s : String) (n : Nat) : String := ⟨s.data.take n⟩

/-- Does `pat` occur at the start of `hay`? (helper for `jsIncludes`). -/
def listStarts (pat hay : List Char) : Bool :=
  match pat, hay with
  | [], _ => true
  | _ :: _, [] => false
  | p :: ps, h :: hs => p = h && listStarts ps hs

/-- Does `pat` occur anywhere inside `hay`? (helper for `jsIncludes`). -/
def listHasSub (pat hay : List Char) : Bool :=
  match hay with
  | [] => listStarts pat []
  | _ :: hs => listStarts pat hay || listHasSub pat hs

/-- JS `s.includes(pat)`. -/
def jsIncludes (s pat : String) : Bool := listHasSub pat.data s.data

/-- Split a byte sequence on `'\n'`, JS `content.split('\n')` semantics:
always returns at least one part; a trailing newline yields a final empty
part. -/
def splitNl : List Char → List (List Char)
  | [] => [[]]
  | c :: rest =>
    match splitNl rest with
    | [] => [[]]
    | p :: ps => if c = '\n' then [] :: p :: ps else (c :: p) :: ps

/-- Inverse of `splitNl`: interleave the parts with `'\n'`. -/
def joinNl : List (List Char) → List Char
  | [] => []
  | [p] => p
  | p :: q :: ps => p ++ '\n' :: joinNl (q :: ps)

/-- Is an optional JS string truthy (present and non-empty)? -/
def optTruthy (o : Option String) : Bool :=
  match o with
  | some s => s ≠ ""
  | none => false

/-! ## JS `Map` model: association list with unique keys -/

/-- JS `Map.set`: replace an existing binding in place, else append. -/
def mapSet {β : Type} (m : List (String × β)) (k : String) (v : β) :
    List (String × β) :=
  if (m.lookup k).isSome then
    m.map (fun p => if p.1 = k then (k, v) else p)
  else
    m ++ [(k, v)]

/-- JS `Map.delete`. -/
def mapDelete {β : Type} (m : List (String × β)) (k : String) :
    List (String × β) :=
  m.filter (fun p => p.1 ≠ k)

/-! ## Event-log record model

The subset of an event-log JSONL record that `processJsonl` reads.  Optional
fields model JS `undefined`; truthiness checks of the source are mirrored at
each use site. -/

/-- `TodoItem` from `src/src/types.ts` as normalised by `processJsonl`
(`activeForm` is passed through and may be absent). -/
structure TodoItem where
  content : String
  status : String
  activeForm : Option String
deriving DecidableEq

/-- A raw todo entry as found in the log record (any of its fields may be
absent); `processJsonl` normalises it with `t.content || ''` and
`t.status || 'pending'`. -/
structure RawTodo where
  content : Option String := none
  status : Option String := none
  activeForm : Option String := none
deriving DecidableEq

/-- An item inside a `tool_result` block's content array: only its `type`
and `text` fields are ever read. -/
structure TRItem where
  type : String := ""
  text : Option String := none
deriving DecidableEq

/-- A content block of a log record message.  `input` is an opaque JSON
payload that the daemon never inspects; it is represented by its serialized
text.  (In `block.input || {}` only the absent case is modelled as falsy.) -/
structure Block where
  type : String := ""
  text : Option String := none
  id : Option String := none
  name : Option String := none
  input : Option String := none
  toolUseId : Option String := none
  content : Option (Sum String (List TRItem)) := none
  isError : Option Bool := none
deriving DecidableEq

/-- The `message` field of a log record: `role` plus string-or-array
`content`. -/
structure LogMessage where
  role : Option String := none
  content : Option (Sum String (List Block)) := none
deriving DecidableEq

/-- A parsed event-log record: exactly the fields `processJsonl` reads.
Timestamps are modelled as natural numbers (milliseconds); a missing or zero
timestamp is replaced by the current time, mirroring
`new Date(data.timestamp || Date.now())`. -/
structure LogRecord where
  type : Option String := none
  slug : Option String := none
  todos : Option (List RawTodo) := none
  isMeta : Bool := false
  subtype : Option String := none
  timestamp : Option Nat := none
  message : Option LogMessage := none
deriving DecidableEq

/-- `new Date(data.timestamp || Date.now())` as a numeric time. -/
def effTime (now : Nat) (timestamp : Option Nat) : Nat :=
  match timestamp with
  | some t => if t = 0 then now else t
  | none => now

/-! ## Frames, decisions and adapter emissions -/

/-- `decision.behavior`. -/
inductive Behavior where
  | allow
  | deny
deriving DecidableEq

/-- A permission decision `{ behavior, message?, updatedInput? }`.  The only
`updatedInput` ever sent is `{ answers }`; we carry the answers object as an
association list. -/
structure Decision where
  behavior : Behavior
  message : Option String := none
  updatedInput : Option (List (String × String)) := none
deriving DecidableEq

/-- A frame written by the daemon to a runner connection. -/
inductive Frame where
  | input (text : String)
  | permissionResponse (requestId : String) (decision : Decision)
deriving DecidableEq

/-- A socket write: which socket, after what scheduled delay (ms), which
frame.  `sendInput` schedules its carriage-return frame with delay 100. -/
structure Write where
  socket : SocketId
  delayMs : Nat
  frame : Frame
deriving DecidableEq

/-- `ToolCallInfo` passed to `onToolCall`. -/
structure ToolCallInfo where
  id : String
  name : String
  input : String
deriving DecidableEq

/-- `ToolResultInfo` passed to `onToolResult`. -/
structure ToolResultInfo where
  toolUseId : String
  content : String
  isError : Bool
deriving DecidableEq

/-- An event emitted upward to the chat adapter (the `SessionEvents`
callbacks). -/
inductive Emission where
  | sessionStart (id : String)
  | sessionEnd (id : String)
  | sessionUpdate (id : String) (name : String)
  | sessionStatus (id : String) (status : Status)
  | message (id : String) (role : String) (content : String)
  | todos (id : String) (ts : List TodoItem)
  | toolCall (id : String) (tc : ToolCallInfo)
  | toolResult (id : String) (tr : ToolResultInfo)
  | planModeChange (id : String) (inPlanMode : Bool)
  | titleChange (id : String) (title : String)
deriving DecidableEq

/-- `PermissionRequestInfo` passed to `onPermissionRequest`. -/
structure PermissionRequestInfo where
  requestId : String
  toolName : String
  toolInput : String
  sessionId : String
deriving DecidableEq

/-! ## Internal session state -/

/-- `InternalSession` of session-manager.ts (the socket object replaced by a
`SocketId`; watcher/poll handles are external resources not carried in the
state). -/
structure InternalSession where
  id : String
  name : String
  cwd : String
  projectDir : String
  socket : SocketId
  status : Status
  seenMessages : List String
  seenMessagesOrder : List String
  startedAt : Nat
  slugFound : Bool
  lastTodosHash : String
  inPlanMode : Bool
  jsonlPath : String
  lastProcessedSize : Nat
  processing : Bool
  pid : Nat
deriving DecidableEq

/-- The manager's three maps. -/
structure ManagerState where
  sessions : List (String × InternalSession)
  pendingPermissions : List (String × SocketId)
  pendingAskUserQuestions : List (String × String)
deriving DecidableEq

/-! ## The LRU seen-set -/

/-- The LRU cleanup loop of `addSeenMessage`:
`while (order.length > MAX) { const oldest = order.shift(); if (oldest) seen.delete(oldest); }`.
Note the JS truthiness check: an empty-string element is shifted but not
deleted from the set. -/
def lruEvict : List String → List String → List String × List String
  | seen, [] => (seen, [])
  | seen, oldest :: rest =>
    if MAX_SEEN_MESSAGES < (oldest :: rest).length then
      lruEvict (if oldest = "" then seen else seen.erase oldest) rest
    else
      (seen, oldest :: rest)

/-- `addSeenMessage`: insert a hash unless present, then LRU-evict above the
cap. -/
def addSeenMessage (s : InternalSession) (lineHash : String) : InternalSession :=
  if s.seenMessages.contains lineHash then s
  else
    let seen := s.seenMessages ++ [lineHash]
    let order := s.seenMessagesOrder ++ [lineHash]
    let r := lruEvict seen order
    { s with seenMessages := r.1, seenMessagesOrder := r.2 }

/-- The dedup key used for chat messages from both sources:
`pty:<sessionId>:<hash of first 100 chars of the trimmed text>`. -/
def ptyKey (sessionId contentHash : String) : String :=
  "pty:" ++ sessionId ++ ":" ++ contentHash

/-! ## `processJsonl`: per-record derivation steps -/

/-- JSON string escaping as performed by `JSON.stringify` (the common escape
set; rare control characters below 0x20 other than `\n`, `\r`, `\t` are not
refined further, no claim depends on them). -/
def escCharL (c : Char) : List Char :=
  if c = '"' then ['\\', '"']
  else if c = '\\' then ['\\', '\\']
  else if c = '\n' then ['\\', 'n']
  else if c = '\r' then ['\\', 'r']
  else if c = '\t' then ['\\', 't']
  else [c]

/-- `JSON.stringify` of a string. -/
def jsonStr (s : String) : String :=
  "\"" ++ ⟨(s.data.map escCharL).flatten⟩ ++ "\""

/-- `JSON.stringify` of one normalised todo item (an `undefined` `activeForm`
is omitted, as `JSON.stringify` does). -/
def stringifyTodo (t : TodoItem) : String :=
  "\x7b\"content\":" ++ jsonStr t.content ++ ",\"status\":" ++ jsonStr t.status ++
    (match t.activeForm with
     | some a => ",\"activeForm\":" ++ jsonStr a
     | none => "") ++ "\x7d"

/-- `JSON.stringify` of the todos array. -/
def stringifyTodos (ts : List TodoItem) : String :=
  "[" ++ String.intercalate "," (ts.map stringifyTodo) ++ "]"

/-- Normalisation of a raw todo: `t.content || ''`, `t.status || 'pending'`
(a present-but-empty status is falsy and also becomes `'pending'`). -/
def normalizeTodo (t : RawTodo) : TodoItem :=
  { content := t.content.getD ""
    status := match t.status with
              | some st => if st = "" then "pending" else st
              | none => "pending"
    activeForm := t.activeForm }

/-- Slug extraction: first occurrence sets the session name and emits a
name-update (`onSessionUpdate`). -/
def slugStep (slug : Option String) (acc : InternalSession × List Emission) :
    InternalSession × List Emission :=
  let s := acc.1
  match slug with
  | some sl =>
    if s.slugFound = false ∧ sl ≠ "" then
      ({ s with slugFound := true, name := sl }, acc.2 ++ [.sessionUpdate s.id sl])
    else acc
  | none => acc

/-- Todos extraction: hash the normalised list; emit `onTodos` when the hash
changed. -/
def todosStep (hash : String → String) (todos? : Option (List RawTodo))
    (acc : InternalSession × List Emission) : InternalSession × List Emission :=
  let s := acc.1
  match todos? with
  | some ts =>
    if 0 < ts.length then
      let todos := ts.map normalizeTodo
      let todosHash := hash (stringifyTodos todos)
      if todosHash ≠ s.lastTodosHash then
        ({ s with lastTodosHash := todosHash }, acc.2 ++ [.todos s.id todos])
      else acc
    else acc
  | none => acc

/-- Plan-mode detection on user records with string content; edge-triggered
emissions. -/
def planModeStep (type : Option String) (message : Option LogMessage)
    (acc : InternalSession × List Emission) : InternalSession × List Emission :=
  let s := acc.1
  if type = some "user" then
    match message with
    | some msg =>
      match msg.content with
      | some (.inl mc) =>
        if jsIncludes mc "<system-reminder>" ∧ jsIncludes mc "Plan mode is active" then
          if s.inPlanMode = false then
            ({ s with inPlanMode := true }, acc.2 ++ [.planModeChange s.id true])
          else acc
        else if jsIncludes mc "Exited Plan Mode" ∨ jsIncludes mc "exited plan mode" then
          if s.inPlanMode = true then
            ({ s with inPlanMode := false }, acc.2 ++ [.planModeChange s.id false])
          else acc
        else acc
      | _ => acc
    | none => acc
  else acc

/-- `block.input || {}` (only the absent case is modelled as falsy). -/
def inputOrEmpty (o : Option String) : String :=
  match o with
  | some j => j
  | none => "\x7b\x7d"

/-- Tool-call extraction from assistant records with array content. -/
def toolCallStep (type : Option String) (message : Option LogMessage)
    (acc : InternalSession × List Emission) : InternalSession × List Emission :=
  let s := acc.1
  if type = some "assistant" then
    match message with
    | some msg =>
      match msg.content with
      | some (.inr blocks) =>
        (s, acc.2 ++ blocks.filterMap (fun b =>
          if b.type = "tool_use" ∧ optTruthy b.id ∧ optTruthy b.name then
            some (Emission.toolCall s.id
              { id := b.id.getD "", name := b.name.getD ""
                input := inputOrEmpty b.input })
          else none))
      | _ => acc
    | none => acc
  else acc

/-- Textual content of a `tool_result` block: a string is used directly; an
array keeps its `text` items joined with newlines (`Array.join` renders a
missing `text` as the empty string). -/
def toolResultText (c : Option (Sum String (List TRItem))) : String :=
  match c with
  | some (.inl str) => str
  | some (.inr items) =>
    String.intercalate "\n"
      ((items.filter (fun b => b.type = "text")).map (fun b => b.text.getD ""))
  | none => ""

/-- Tool-result extraction from user records with array content. -/
def toolResultStep (type : Option String) (message : Option LogMessage)
    (acc : InternalSession × List Emission) : InternalSession × List Emission :=
  let s := acc.1
  if type = some "user" then
    match message with
    | some msg =>
      match msg.content with
      | some (.inr blocks) =>
        (s, acc.2 ++ blocks.filterMap (fun b =>
          if b.type = "tool_result" ∧ optTruthy b.toolUseId then
            some (Emission.toolResult s.id
              { toolUseId := b.toolUseId.getD ""
                content := toolResultText b.content
                isError := b.isError = some true })
          else none))
      | _ => acc
    | none => acc
  else acc

/-- The chat text of a record message: a string content directly, an array
content concatenating its truthy `text` blocks. -/
def chatTextContent (c : Option (Sum String (List Block))) : String :=
  match c with
  | some (.inl str) => str
  | some (.inr blocks) =>
    blocks.foldl (fun a b =>
      if b.type = "text" ∧ optTruthy b.text then a ++ b.text.getD "" else a) ""
  | none => ""

/-- Chat-message forwarding: gated on type/user-or-assistant, not meta, no
subtype, non-empty trimmed text, and timestamp not before session start;
deduplicated against the shared `pty:` key; followed by the role-driven
status update (which fires even when the message itself is deduplicated). -/
def chatStep (hash : String → String) (now : Nat) (type : Option String)
    (isMeta : Bool) (subtype : Option String) (timestamp : Option Nat)
    (message : Option LogMessage) (acc : InternalSession × List Emission) :
    InternalSession × List Emission :=
  if (type = some "user" ∨ type = some "assistant") ∧ isMeta = false ∧
      optTruthy subtype = false then
    match message with
    | none => acc
    | some msg =>
      if optTruthy msg.role then
        let role := msg.role.getD ""
        let textContent := chatTextContent msg.content
        if jsTrim textContent ≠ "" then
          let s := acc.1
          let messageTime := effTime now timestamp
          if s.startedAt ≤ messageTime then
            let trimmedContent := jsTrim textContent
            let contentHash := hash (jsTake trimmedContent 100)
            let contentKey := ptyKey s.id contentHash
            let acc2 :=
              if s.seenMessages.contains contentKey then acc
              else (addSeenMessage s contentKey,
                    acc.2 ++ [.message s.id role trimmedContent])
            let s2 := acc2.1
            if role = "user" ∧ s2.status ≠ .running then
              ({ s2 with status := .running },
               acc2.2 ++ [.sessionStatus s2.id .running])
            else if role = "assistant" ∧ s2.status ≠ .idle then
              ({ s2 with status := .idle },
               acc2.2 ++ [.sessionStatus s2.id .idle])
            else acc2
          else acc
        else acc
      else acc
  else acc

/-- Processing of one parsed record: the per-record derivations of
`processJsonl` in source order (slug, todos, plan mode, tool calls, tool
results, chat message). -/
def processRecord (hash : String → String) (now : Nat)
    (acc : InternalSession × List Emission) (data : LogRecord) :
    InternalSession × List Emission :=
  chatStep hash now data.type data.isMeta data.subtype data.timestamp data.message
    (toolResultStep data.type data.message
      (toolCallStep data.type data.message
        (planModeStep data.type data.message
          (todosStep hash data.todos
            (slugStep data.slug acc)))))

/-- Processing of one complete line: hash-dedup, parse, then the record
derivations.  A parse failure consumes the line (its hash is recorded). -/
def processLine (hash : String → String) (parse : String → Option LogRecord)
    (now : Nat) (acc : InternalSession × List Emission) (line : List Char) :
    InternalSession × List Emission :=
  let s := acc.1
  let lineHash := hash (String.mk line)
  if s.seenMessages.contains lineHash then acc
  else
    let s := addSeenMessage s lineHash
    match parse (String.mk line) with
    | none => (s, acc.2)
    | some data => processRecord hash now (s, acc.2) data

/-- The complete lines a tail run parses: the newly read region split on
newlines, with the final (possibly incomplete) fragment removed, empty parts
filtered out. -/
def runLines (s : InternalSession) (buffer : List Char) : List (List Char) :=
  ((splitNl (buffer.drop s.lastProcessedSize)).dropLast).filter
    (fun p => !p.isEmpty)

/-- `processJsonl`: one tail-processing run over the event-log file contents
`buffer`.  Returns the updated session and the emissions of the run.  The
`processing` re-entrancy flag is checked; since a run is modelled atomically
its set/unset cancels out. -/
def processJsonl (hash : String → String) (parse : String → Option LogRecord)
    (now : Nat) (s : InternalSession) (buffer : List Char) :
    InternalSession × List Emission :=
  if s.jsonlPath = "" then (s, [])
  else if s.processing then (s, [])
  else if buffer.length ≤ s.lastProcessedSize then (s, [])
  else
    let newContent := buffer.drop s.lastProcessedSize
    let parts := splitNl newContent
    let lastPart := parts.getLastD []
    let incompleteBytes := lastPart.length
    let s1 := { s with lastProcessedSize := buffer.length - incompleteBytes }
    let lines := parts.dropLast.filter (fun p => !p.isEmpty)
    lines.foldl (processLine hash parse now) (s1, [])

/-! ## The RPC hub: frames, events, and the manager step machine -/

/-- The payload of a `session_start` frame, together with the observed size
of an already-existing event-log file (the `stat` result; 0 when the file
does not exist yet). -/
structure SessionStartMsg where
  id : String
  name : Option String := none
  command : Option (List String) := none
  cwd : String := ""
  projectDir : String := ""
  jsonlFile : String := ""
  pid : Option Nat := none
deriving DecidableEq

/-- A parsed incoming RPC frame (the `message.type` dispatch of
`handleSessionMessage`).  `statSize` on `sessionStart` is the size observed
by the initial `stat` of the event-log file. -/
inductive RpcMessage where
  | sessionStart (m : SessionStartMsg) (statSize : Nat)
  | sessionEnd (sessionId : String)
  | titleUpdate (sessionId : String) (title : Option String)
  | ptyOutput (sessionId : String) (content : Option String)
  | permissionRequest (requestId : String) (toolName : String)
      (toolInput : String) (sessionId : String)
deriving DecidableEq

/-- How the adapter's `onPermissionRequest` promise behaves for a given
request: resolve immediately, reject (throw), or resolve later (in which
case the decision arrives as a separate `adapterDecision` event). -/
inductive HandlerOutcome where
  | immediate (d : Decision)
  | throws
  | pending

/-- An input event of the manager: an RPC frame on a socket, a socket close,
an adapter decision call, an AskUserQuestion allow call, a `sendInput` call
(`writeOk` models whether the socket write succeeds), or a tail-processing
run observing the given event-log contents. -/
inductive InEvent where
  | frame (sock : SocketId) (msg : RpcMessage)
  | socketClose (sock : SocketId)
  | adapterDecision (requestId : String) (decision : Decision)
  | askAllow (sessionId : String) (answers : List (String × String))
  | input (sessionId : String) (text : String) (writeOk : Bool)
  | tailRun (sessionId : String) (buffer : List Char)

/-- Environment of the model: the external library functions and the clock. -/
structure Env where
  hash : String → String
  parse : String → Option LogRecord
  handler : PermissionRequestInfo → HandlerOutcome
  now : Nat

/-- Output of one manager step. -/
structure StepOut where
  state : ManagerState
  emissions : List Emission
  writes : List Write
  handlerCalls : List PermissionRequestInfo

/-- `sendPermissionDecision`: write the response on the pending socket and
drop the pending entry; with no pending entry, do nothing. -/
def sendPermissionDecision (ms : ManagerState) (requestId : String)
    (decision : Decision) : ManagerState × List Write :=
  match ms.pendingPermissions.lookup requestId with
  | none => (ms, [])
  | some sock =>
    ({ ms with pendingPermissions := mapDelete ms.pendingPermissions requestId },
     [⟨sock, 0, .permissionResponse requestId decision⟩])

/-- `sendAskUserQuestionResponse`: the allow-with-answers variant. -/
def sendAskUserQuestionResponse (ms : ManagerState) (requestId : String)
    (answers : List (String × String)) : ManagerState × List Write :=
  match ms.pendingPermissions.lookup requestId with
  | none => (ms, [])
  | some sock =>
    ({ ms with pendingPermissions := mapDelete ms.pendingPermissions requestId },
     [⟨sock, 0, .permissionResponse requestId
        ⟨.allow, none, some answers⟩⟩])

/-- `allowPendingAskUserQuestion`: resolve the session's pending
AskUserQuestion request (if any) with an allow-with-answers response. -/
def allowPendingAskUserQuestion (ms : ManagerState) (sessionId : String)
    (answers : List (String × String)) : ManagerState × List Write :=
  match ms.pendingAskUserQuestions.lookup sessionId with
  | none => (ms, [])
  | some requestId =>
    let r := sendAskUserQuestionResponse ms requestId answers
    ({ r.1 with
        pendingAskUserQuestions := mapDelete r.1.pendingAskUserQuestions sessionId },
     r.2)

/-- `sendInput`: write an input frame, then schedule a carriage-return frame
100 ms later; a failing first write tears the session down and surfaces
session-end.  Returns (state, writes, emissions, boolean result). -/
def sendInput (ms : ManagerState) (sessionId text : String) (writeOk : Bool) :
    ManagerState × List Write × List Emission × Bool :=
  match ms.sessions.lookup sessionId with
  | none => (ms, [], [], false)
  | some session =>
    if writeOk then
      (ms,
       [⟨session.socket, 0, .input text⟩, ⟨session.socket, 100, .input "\r"⟩],
       [], true)
    else
      ({ ms with sessions := mapDelete ms.sessions sessionId },
       [], [.sessionEnd sessionId], false)

/-- The `pty_output` case of `handleSessionMessage`: trimmed non-empty
content is forwarded as an assistant message unless its dedup key was seen. -/
def ptyOutputStep (hash : String → String) (ms : ManagerState)
    (sessionId : String) (content? : Option String) :
    ManagerState × List Emission :=
  match ms.sessions.lookup sessionId with
  | none => (ms, [])
  | some session =>
    match content? with
    | none => (ms, [])
    | some raw =>
      if raw = "" then (ms, [])
      else
        let content := jsTrim raw
        if content = "" then (ms, [])
        else
          let contentHash := hash (jsTake content 100)
          let recentKey := ptyKey session.id contentHash
          if session.seenMessages.contains recentKey then (ms, [])
          else
            let session' := addSeenMessage session recentKey
            ({ ms with sessions := mapSet ms.sessions sessionId session' },
             [.message session.id "assistant" content])

/-- `message.name || message.command?.join(' ') || 'Session'`. -/
def sessionName (m : SessionStartMsg) : String :=
  match m.name with
  | some n =>
    if n ≠ "" then n
    else match m.command with
         | some cmd =>
           let j := String.intercalate " " cmd
           if j ≠ "" then j else "Session"
         | none => "Session"
  | none =>
    match m.command with
    | some cmd =>
      let j := String.intercalate " " cmd
      if j ≠ "" then j else "Session"
    | none => "Session"

/-- The `session_start` case: record the session (initial tail offset from
the observed file size) and emit `onSessionStart`.  The watcher setup that
follows is modelled by separate `tailRun` events. -/
def sessionStartStep (now : Nat) (ms : ManagerState) (sock : SocketId)
    (m : SessionStartMsg) (statSize : Nat) : ManagerState × List Emission :=
  let jsonlPath := m.projectDir ++ "/" ++ m.jsonlFile
  let session : InternalSession :=
    { id := m.id, name := sessionName m, cwd := m.cwd
      projectDir := m.projectDir, socket := sock, status := .running
      seenMessages := [], seenMessagesOrder := [], startedAt := now
      slugFound := false, lastTodosHash := "", inPlanMode := false
      jsonlPath := jsonlPath, lastProcessedSize := statSize
      processing := false, pid := m.pid.getD 0 }
  ({ ms with sessions := mapSet ms.sessions m.id session },
   [.sessionStart m.id])

/-- `handleSessionMessage`: dispatch on the frame type. -/
def handleSessionMessage (env : Env) (ms : ManagerState) (sock : SocketId) :
    RpcMessage → StepOut
  | .sessionStart m statSize =>
    let r := sessionStartStep env.now ms sock m statSize
    ⟨r.1, r.2, [], []⟩
  | .sessionEnd sessionId =>
    match ms.sessions.lookup sessionId with
    | some _ =>
      ⟨{ ms with sessions := mapDelete ms.sessions sessionId },
       [.sessionEnd sessionId], [], []⟩
    | none => ⟨ms, [], [], []⟩
  | .titleUpdate sessionId title =>
    match ms.sessions.lookup sessionId with
    | some _ =>
      if optTruthy title then
        ⟨ms, [.titleChange sessionId (title.getD "")], [], []⟩
      else ⟨ms, [], [], []⟩
    | none => ⟨ms, [], [], []⟩
  | .ptyOutput sessionId content =>
    let r := ptyOutputStep env.hash ms sessionId content
    ⟨r.1, r.2, [], []⟩
  | .permissionRequest requestId toolName toolInput sessionId =>
    let ms1 := { ms with
      pendingPermissions := mapSet ms.pendingPermissions requestId sock }
    if toolName = "AskUserQuestion" then
      ⟨{ ms1 with
          pendingAskUserQuestions :=
            mapSet ms1.pendingAskUserQuestions sessionId requestId }, [], [], []⟩
    else
      let info : PermissionRequestInfo :=
        ⟨requestId, toolName, toolInput, sessionId⟩
      match env.handler info with
      | .immediate d =>
        let r := sendPermissionDecision ms1 requestId d
        ⟨r.1, [], r.2, [info]⟩
      | .throws =>
        let r := sendPermissionDecision ms1 requestId
          ⟨.deny, some "Error processing request", none⟩
        ⟨r.1, [], r.2, [info]⟩
      | .pending => ⟨ms1, [], [], [info]⟩

/-- The socket `close` handler: find the first session bound to the closing
socket (the loop breaks after one match), tear it down and emit
session-end. -/
def socketCloseStep (ms : ManagerState) (sock : SocketId) :
    ManagerState × List Emission :=
  match ms.sessions.find? (fun p => p.2.socket == sock) with
  | some p =>
    ({ ms with sessions := mapDelete ms.sessions p.1 }, [.sessionEnd p.1])
  | none => (ms, [])

/-- One manager step on an input event. -/
def step (env : Env) (ms : ManagerState) : InEvent → StepOut
  | .frame sock msg => handleSessionMessage env ms sock msg
  | .socketClose sock =>
    let r := socketCloseStep ms sock
    ⟨r.1, r.2, [], []⟩
  | .adapterDecision requestId decision =>
    let r := sendPermissionDecision ms requestId decision
    ⟨r.1, [], r.2, []⟩
  | .askAllow sessionId answers =>
    let r := allowPendingAskUserQuestion ms sessionId answers
    ⟨r.1, [], r.2, []⟩
  | .input sessionId text writeOk =>
    let r := sendInput ms sessionId text writeOk
    ⟨r.1, r.2.2.1, r.2.1, []⟩
  | .tailRun sessionId buffer =>
    match ms.sessions.lookup sessionId with
    | none => ⟨ms, [], [], []⟩
    | some s =>
      let r := processJsonl env.hash env.parse env.now s buffer
      ⟨{ ms with sessions := mapSet ms.sessions sessionId r.1 }, r.2, [], []⟩

/-- Accumulated output of a run over a list of events. -/
structure RunOut where
  state : ManagerState
  emissions : List Emission
  writes : List Write

/-- Run the manager over a sequence of input events, accumulating emissions
and writes in order. -/
def runM (env : Env) : ManagerState → List InEvent → RunOut
  | ms, [] => ⟨ms, [], []⟩
  | ms, ev :: evs =>
    let o := step env ms ev
    let r := runM env o.state evs
    ⟨r.state, o.emissions ++ r.emissions, o.writes ++ r.writes⟩

/-- Run a sequence of `pty_output` frames for one session (used to analyse
the dedup mechanism). -/
def runPty (hash : String → String) (ms : ManagerState) (sessionId : String) :
    List String → ManagerState × List Emission
  | [] => (ms, [])
  | c :: cs =>
    let o := ptyOutputStep hash ms sessionId (some c)
    let r := runPty hash o.1 sessionId cs
    (r.1, o.2 ++ r.2)

/-! ## Discord-side state and handlers -/

/-- One sub-question of an AskUserQuestion request
(options are (label, description) pairs). -/
structure QuestionSpec where
  question : String
  header : String
  options : List (String × String)
  multiSelect : Bool
deriving DecidableEq

/-- `PendingQuestion` of `src/src/discord/state.ts`. -/
structure PendingQuestionEntry where
  sessionId : String
  toolUseId : String
  questions : List QuestionSpec
deriving DecidableEq

/-- A `PendingPermission` entry of the Discord state; the resolver
continuation is abstracted (its resolution is delivered through
`HandlerOutcome` / `adapterDecision`). -/
structure PendingPermissionEntry where
  requestId : String
  sessionId : String
deriving DecidableEq

/-- The Discord shared state (`createState`), restricted to the fields the
claims concern. -/
structure DiscordState where
  pendingQuestions : List (String × PendingQuestionEntry)
  pendingMultiSelections : List (String × List String)
  pendingAnswers : List (String × String)
  pendingPermissions : List (String × PendingPermissionEntry)
  yoloSessions : List String
deriving DecidableEq

/-- A message posted to the Discord thread by the permission handler. -/
inductive Post where
  | permissionUI (requestId : String) (toolName : String)
  | yoloNote (toolName : String)
deriving DecidableEq

/-- Outcome of the chat-thread resolution chain of the permission handler
(direct thread, active-session fallback and persisted-mapping fallback are
collapsed into `found`). -/
inductive ThreadRes where
  | found (threadId : String)
  | noneAvailable
  | postFailed
deriving DecidableEq

/-- Result of the Discord permission-request handler. -/
structure HandlerResult where
  outcome : HandlerOutcome
  state : DiscordState
  posts : List Post

/-- `createPermissionRequestHandler` (src/src/discord/handlers/permission.ts):
YOLO sessions are auto-allowed (with a thread notification when a thread is
available) without registering a pending entry; otherwise a pending entry is
registered and the permission UI is posted, falling back to allow (no thread)
or deny (post failure). -/
def permissionRequestHandler (ds : DiscordState) (req : PermissionRequestInfo)
    (threadRes : ThreadRes) : HandlerResult :=
  if req.sessionId ∈ ds.yoloSessions then
    { outcome := .immediate ⟨.allow, none, none⟩
      state := ds
      posts := match threadRes with
               | .found _ => [.yoloNote req.toolName]
               | _ => [] }
  else
    let ds1 := { ds with
      pendingPermissions :=
        mapSet ds.pendingPermissions req.requestId ⟨req.requestId, req.sessionId⟩ }
    match threadRes with
    | .found _ =>
      { outcome := .pending, state := ds1
        posts := [.permissionUI req.requestId req.toolName] }
    | .noneAvailable =>
      { outcome := .immediate ⟨.allow, none, none⟩
        state := { ds1 with
          pendingPermissions := mapDelete ds1.pendingPermissions req.requestId }
        posts := [] }
    | .postFailed =>
      { outcome := .immediate ⟨.deny, some "Failed to post to Discord", none⟩
        state := { ds1 with
          pendingPermissions := mapDelete ds1.pendingPermissions req.requestId }
        posts := [] }

/-- The `permission_request` case of `handleSessionMessage` wired to the
Discord handler: AskUserQuestion requests are parked without consulting the
handler; other requests go through the handler, whose immediate resolutions
are forwarded via `sendPermissionDecision`. -/
def combinedPermissionRequest (ms : ManagerState) (ds : DiscordState)
    (sock : SocketId) (requestId toolName toolInput sessionId : String)
    (threadRes : ThreadRes) :
    ManagerState × DiscordState × List Write × List Post :=
  let ms1 := { ms with
    pendingPermissions := mapSet ms.pendingPermissions requestId sock }
  if toolName = "AskUserQuestion" then
    ({ ms1 with
        pendingAskUserQuestions :=
          mapSet ms1.pendingAskUserQuestions sessionId requestId }, ds, [], [])
  else
    let hr := permissionRequestHandler ds
      ⟨requestId, toolName, toolInput, sessionId⟩ threadRes
    match hr.outcome with
    | .immediate d =>
      let r := sendPermissionDecision ms1 requestId d
      (r.1, hr.state, r.2, hr.posts)
    | .throws =>
      let r := sendPermissionDecision ms1 requestId
        ⟨.deny, some "Error processing request", none⟩
      (r.1, hr.state, r.2, hr.posts)
    | .pending => (ms1, hr.state, [], hr.posts)

/-- The answer-collection loop of `getAllAnswers`: answers for questions
`0 .. count-1` under keys `toolUseId:i`; a missing or empty (falsy) answer
aborts with `null`. -/
def collectAnswers (pendingAnswers : List (String × String))
    (toolUseId : String) : Nat → Option (List (String × String))
  | 0 => some []
  | k + 1 =>
    match collectAnswers pendingAnswers toolUseId k with
    | none => none
    | some acc =>
      match pendingAnswers.lookup (toolUseId ++ ":" ++ toString k) with
      | none => none
      | some a => if a = "" then none else some (acc ++ [(toString k, a)])

/-- `getAllAnswers` (src/src/discord/state.ts): all captured answers of a
pending question set, or `none` while any question is unanswered. -/
def getAllAnswers (ds : DiscordState) (toolUseId : String) :
    Option (List (String × String)) :=
  match ds.pendingQuestions.lookup toolUseId with
  | none => none
  | some pending => collectAnswers ds.pendingAnswers toolUseId pending.questions.length

/-- `cleanupQuestionState`: drop per-question answers/selections and the
pending entry. -/
def cleanupQuestionState (ds : DiscordState) (toolUseId : String) : DiscordState :=
  match ds.pendingQuestions.lookup toolUseId with
  | none => ds
  | some pending =>
    { ds with
      pendingAnswers := (List.range pending.questions.length).foldl
        (fun m i => mapDelete m (toolUseId ++ ":" ++ toString i)) ds.pendingAnswers
      pendingMultiSelections := (List.range pending.questions.length).foldl
        (fun m i => mapDelete m (toolUseId ++ ":" ++ toString i))
        ds.pendingMultiSelections
      pendingQuestions := mapDelete ds.pendingQuestions toolUseId }

/-- `trySubmitAllAnswers` (ask-question.ts): when every question of the
pending set has an answer, deliver them through
`allowPendingAskUserQuestion` and clean up; otherwise do nothing. -/
def trySubmitAllAnswers (ds : DiscordState) (ms : ManagerState)
    (toolUseId : String) : DiscordState × ManagerState × List Write × Bool :=
  match ds.pendingQuestions.lookup toolUseId with
  | none => (ds, ms, [], false)
  | some pending =>
    match getAllAnswers ds toolUseId with
    | none => (ds, ms, [], false)
    | some answers =>
      let r := allowPendingAskUserQuestion ms pending.sessionId answers
      (cleanupQuestionState ds toolUseId, r.1, r.2, true)

/-- The shared tail of the askq button/submit/modal handlers: store the
captured answer under `toolUseId:qIdx`, then try to submit the full set. -/
def handleAnswerCapture (ds : DiscordState) (ms : ManagerState)
    (toolUseId : String) (qIdx : Nat) (answer : String) :
    DiscordState × ManagerState × List Write :=
  match ds.pendingQuestions.lookup toolUseId with
  | none => (ds, ms, [])
  | some pending =>
    if qIdx < pending.questions.length then
      let ds1 := { ds with
        pendingAnswers :=
          mapSet ds.pendingAnswers (toolUseId ++ ":" ++ toString qIdx) answer }
      let r := trySubmitAllAnswers ds1 ms toolUseId
      (r.1, r.2.1, r.2.2.1)
    else (ds, ms, [])

/-! ## Auxiliary predicates and concrete instances used in the theorems -/

/-- Well-formedness of a session's seen-set: the set equals the order list,
the order list is duplicate-free, contains no empty string, and respects the
cap.  These hold in every reachable state (sessions start with empty lists,
and every inserted key is a non-empty MD5 hex digest or `pty:`-prefixed
key). -/
def GoodSeen (s : InternalSession) : Prop :=
  s.seenMessages = s.seenMessagesOrder ∧ s.seenMessagesOrder.Nodup ∧
  "" ∉ s.seenMessagesOrder ∧ s.seenMessagesOrder.length ≤ MAX_SEEN_MESSAGES

/-- The net effect of a fresh insertion under the cap invariant: append, and
shift out the oldest entry exactly when the list was full. -/
def pushSeen (l : List String) (k : String) : List String :=
  if l.length = MAX_SEEN_MESSAGES then l.tail ++ [k] else l ++ [k]

/-- Is this write a `permission_response` frame for request id `r`? -/
def isRespWrite (r : String) (w : Write) : Bool :=
  match w.frame with
  | .permissionResponse r' _ => r' == r
  | _ => false

/-- Number of `permission_response` frames for request id `r` among the
writes. -/
def respCount (r : String) (ws : List Write) : Nat :=
  (ws.filter (isRespWrite r)).length

/-- Is this event an incoming `permission_request` frame carrying request id
`r`? -/
def isPermReqFor (r : String) : InEvent → Bool
  | .frame _ (.permissionRequest r' _ _ _) => r' == r
  | _ => false

/-- Number of session-end emissions for `sid`. -/
def endCount (sid : String) (es : List Emission) : Nat :=
  (es.filter (fun e => e == Emission.sessionEnd sid)).length

/-- Is this event a `session_start` frame declaring session id `sid`? -/
def isStartOfSid (sid : String) : InEvent → Bool
  | .frame _ (.sessionStart m _) => m.id == sid
  | _ => false

/-- Is this event a `session_start` frame arriving on socket `sock`? -/
def isStartOnSock (sock : SocketId) : InEvent → Bool
  | .frame s (.sessionStart _ _) => s == sock
  | _ => false

/-- Is this event one of the three disconnect paths for session `sid` bound
to socket `sock`: an explicit `session_end` frame, the socket closing, or a
failing input write? -/
def isTriggerEv (sid : String) (sock : SocketId) : InEvent → Bool
  | .socketClose s => s == sock
  | .frame _ (.sessionEnd sid') => sid' == sid
  | .input sid' _ ok => sid' == sid && !ok
  | _ => false

/-- "No session-end emission occurs in this list." -/
def NoEnd (es : List Emission) : Prop :=
  ∀ e ∈ es, ∀ x, e ≠ Emission.sessionEnd x

/-- The session fields that tail processing of a line never modifies. -/
def SameStable (s t : InternalSession) : Prop :=
  t.id = s.id ∧ t.socket = s.socket ∧ t.startedAt = s.startedAt ∧
  t.jsonlPath = s.jsonlPath ∧ t.lastProcessedSize = s.lastProcessedSize ∧
  t.processing = s.processing

/-- The sessions map has unique keys (true of every reachable state: JS Map
keys are unique). -/
def KeysNodup (ms : ManagerState) : Prop :=
  (ms.sessions.map Prod.fst).Nodup

/-- Session `sid` is live and bound to socket `sock`, and no other session
occupies that socket. -/
def LiveSid (sid : String) (sock : SocketId) (ms : ManagerState) : Prop :=
  (∃ s, ms.sessions.lookup sid = some s ∧ s.socket = sock) ∧
  (∀ p ∈ ms.sessions, p.2.socket = sock → p.1 = sid)

/-- Session `sid` is gone and nothing occupies socket `sock`. -/
def DeadSid (sid : String) (sock : SocketId) (ms : ManagerState) : Prop :=
  ms.sessions.lookup sid = none ∧ (∀ p ∈ ms.sessions, p.2.socket ≠ sock)

/-- "Question `j` has no captured (non-empty) answer yet" on a
pending-answers map. -/
def badAnswerAt (pa : List (String × String)) (tid : String) (j : Nat) : Prop :=
  pa.lookup (tid ++ ":" ++ toString j) = none ∨
  pa.lookup (tid ++ ":" ++ toString j) = some ""

/-- A trivial environment for concrete runs: identity hash, no parsed
records, permission handler stays pending. -/
def env0 : Env := ⟨fun s => s, fun _ => none, fun _ => .pending, 0⟩

/-- The empty manager state. -/
def msEmpty : ManagerState := ⟨[], [], []⟩

/-- A concrete `session_start` payload. -/
def startA : SessionStartMsg :=
  { id := "S", name := some "sess", cwd := "/w", projectDir := "/p"
    jsonlFile := "S.jsonl", pid := some 4242 }

/-- A concrete live session bound to socket 1. -/
def sess0 : InternalSession :=
  { id := "S", name := "sess", cwd := "/w", projectDir := "/p", socket := 1
    status := .running, seenMessages := [], seenMessagesOrder := []
    startedAt := 0, slugFound := false, lastTodosHash := "", inPlanMode := false
    jsonlPath := "/p/S.jsonl", lastProcessedSize := 0, processing := false
    pid := 4242 }

/-- A manager state holding the one live session `sess0`. -/
def msA : ManagerState := ⟨[("S", sess0)], [], []⟩

/-- A Discord state with session "S" in YOLO mode. -/
def dsYolo : DiscordState := ⟨[], [], [], [], ["S"]⟩

/-- Trace: a session starts, sends an AskUserQuestion permission request,
then ends via an explicit `session_end` frame; afterwards the user's answer
arrives. -/
def c7evs : List InEvent :=
  [.frame 1 (.sessionStart startA 0),
   .frame 1 (.permissionRequest "r1" "AskUserQuestion" "\x7b\x7d" "S"),
   .frame 1 (.sessionEnd "S"),
   .askAllow "S" [("0", "yes")]]

/-- Trace: two AskUserQuestion permission requests of the same session are
outstanding concurrently. -/
def c8evs : List InEvent :=
  [.frame 1 (.sessionStart startA 0),
   .frame 1 (.permissionRequest "r1" "AskUserQuestion" "\x7b\x7d" "S"),
   .frame 1 (.permissionRequest "r2" "AskUserQuestion" "\x7b\x7d" "S")]

/-- An environment whose permission handler always rejects (throws). -/
def env9 : Env := ⟨fun s => s, fun _ => none, fun _ => .throws, 0⟩

/-- The `j`-th binary digit of `i`, rendered as a letter. -/
def bitChar (i j : Nat) : Char := if Nat.testBit i j then 'b' else 'a'

/-- The `i`-th of a family of pairwise-distinct 14-character message texts
(distinct for `i < 2 ^ 14`), used to exercise the seen-set cap. -/
def freshKey (i : Nat) : String := String.mk ((List.range 14).map (bitChar i))

/-- `10001` pairwise-distinct message texts — one more than
`MAX_SEEN_MESSAGES`. -/
def freshMsgs : List String := (List.range 10001).map freshKey

/-- Is this emission a chat `message(role, text)` event? -/
def isMsgEmission : Emission → Bool
  | .message _ _ _ => true
  | _ => false

/-- The emissions `processJsonl` derives from a record outside the chat-gated
block: tool calls, tool results, todos, plan-mode changes and name updates. -/
def gateFreeEmission : Emission → Bool
  | .toolCall _ _ => true
  | .toolResult _ _ => true
  | .todos _ _ => true
  | .planModeChange _ _ => true
  | .sessionUpdate _ _ => true
  | _ => false

/-- The per-record derivation chain of `processJsonl` up to (excluding) the
chat-message block. -/
def preChatSteps (hash : String → String) (data : LogRecord)
    (acc : InternalSession × List Emission) : InternalSession × List Emission :=
  toolResultStep data.type data.message
    (toolCallStep data.type data.message
      (planModeStep data.type data.message
        (todosStep hash data.todos (slugStep data.slug acc))))

/-- A live session whose start timestamp is later than epoch (for exercising
the chat timestamp gate). -/
def sessLate : InternalSession := { sess0 with startedAt := 10 }

/-- A concrete meta record carrying a slug and an early-timestamped chat
message. -/
def recC10 : LogRecord :=
  { type := some "assistant", slug := some "myslug", isMeta := true
    timestamp := some 5
    message := some ⟨some "assistant", some (.inl "hello")⟩ }

/-! ## Lemmas about the JS `Map` model -/

theorem lookup_cons_eqn {β : Type} (a1 : String) (a2 : β) (t : List (String × β))
    (k : String) :
    List.lookup k ((a1, a2) :: t) = if k = a1 then some a2 else List.lookup k t := by
  by_cases he : k = a1
  · subst he; simp [List.lookup]
  · have hb : (k == a1) = false := beq_eq_false_iff_ne.mpr he
    simp [List.lookup, hb, he]

theorem lookup_map_replace_of_ne {β : Type} (m : List (String × β)) (k k' : String)
    (v : β) (h : k' ≠ k) :
    ((m.map fun p => if p.1 = k then (k, v) else p).lookup k') = m.lookup k' := by
  induction m with
  | nil => rfl
  | cons a t ih =>
    obtain ⟨a1, a2⟩ := a
    by_cases hk : a1 = k
    · subst hk
      simp [List.map_cons, lookup_cons_eqn, ih, h]
    · have hfst : ((a1, a2).1 = k) = False := by simp [hk]
      simp only [List.map_cons, hfst, if_false, lookup_cons_eqn, ih]

theorem lookup_map_replace_self {β : Type} (m : List (String × β)) (k : String)
    (v : β) (h : (m.lookup k).isSome = true) :
    ((m.map fun p => if p.1 = k then (k, v) else p).lookup k) = some v := by
  induction m with
  | nil => simp [List.lookup] at h
  | cons a t ih =>
    obtain ⟨a1, a2⟩ := a
    by_cases hk : a1 = k
    · subst hk
      simp [List.map_cons, lookup_cons_eqn]
    · have hfst : ((a1, a2).1 = k) = False := by simp [hk]
      rw [lookup_cons_eqn] at h
      have hne : k ≠ a1 := fun he => hk he.symm
      simp only [hne, if_false] at h
      simp only [List.map_cons, hfst, if_false, lookup_cons_eqn, hne, if_false]
      exact ih h

theorem lookup_append_single {β : Type} (m : List (String × β)) (k k' : String)
    (v : β) (h : m.lookup k = none) :
    ((m ++ [(k, v)]).lookup k') = if k' = k then some v else m.lookup k' := by
  induction m with
  | nil => rw [List.nil_append, lookup_cons_eqn]
  | cons a t ih =>
    obtain ⟨a1, a2⟩ := a
    rw [lookup_cons_eqn] at h
    by_cases h1 : k = a1
    · simp [h1] at h
    · simp only [h1, if_false] at h
      simp only [List.cons_append, lookup_cons_eqn, ih h]
      by_cases h2 : k' = a1
      · subst h2
        have : k' ≠ k := fun he => h1 he.symm
        simp [this]
      · simp [h2]

/-- `Map.set` then `Map.get`. -/
theorem lookup_mapSet {β : Type} (m : List (String × β)) (k k' : String) (v : β) :
    (mapSet m k v).lookup k' = if k' = k then some v else m.lookup k' := by
  unfold mapSet
  by_cases h : (m.lookup k).isSome
  · simp only [h, if_true]
    by_cases he : k' = k
    · subst he; simp [lookup_map_replace_self m k' v h]
    · simp [he, lookup_map_replace_of_ne m k k' v he]
  · simp only [h, if_false]
    have hn : m.lookup k = none := by
      cases hx : m.lookup k
      · rfl
      · rw [hx] at h; simp at h
    exact lookup_append_single m k k' v hn

theorem lookup_mapSet_self {β : Type} (m : List (String × β)) (k : String) (v : β) :
    (mapSet m k v).lookup k = some v := by
  simp [lookup_mapSet]

theorem lookup_mapSet_ne {β : Type} (m : List (String × β)) (k k' : String) (v : β)
    (h : k' ≠ k) : (mapSet m k v).lookup k' = m.lookup k' := by
  simp [lookup_mapSet, h]

/-- `Map.delete` then `Map.get`. -/
theorem lookup_mapDelete {β : Type} (m : List (String × β)) (k k' : String) :
    (mapDelete m k).lookup k' = if k' = k then none else m.lookup k' := by
  induction m with
  | nil => simp [mapDelete, List.lookup]
  | cons a t ih =>
    obtain ⟨a1, a2⟩ := a
    unfold mapDelete at ih ⊢
    rw [List.filter_cons]
    by_cases h1 : a1 = k
    · have hd : (decide ((a1, a2).1 ≠ k)) = false := by simp [h1]
      rw [hd]
      simp only [Bool.false_eq_true, if_false]
      rw [ih]
      by_cases he : k' = k
      · simp [he]
      · have hka : ¬ k' = a1 := by rw [h1]; exact he
        simp [he, lookup_cons_eqn, hka]
    · have hd : (decide ((a1, a2).1 ≠ k)) = true := by simp [h1]
      rw [hd]
      simp only [if_true]
      rw [lookup_cons_eqn, lookup_cons_eqn, ih]
      by_cases h2 : k' = a1
      · have hkk : ¬ k' = k := by rw [h2]; exact h1
        simp [h2, hkk, h1]
      · simp [h2]

theorem mem_mapDelete {β : Type} {m : List (String × β)} {k : String}
    {p : String × β} (h : p ∈ mapDelete m k) : p ∈ m ∧ p.1 ≠ k := by
  unfold mapDelete at h
  have := List.mem_filter.mp h
  refine ⟨this.1, ?_⟩
  have := this.2
  simpa using this

theorem mem_mapSet {β : Type} {m : List (String × β)} {k : String} {v : β}
    {p : String × β} (h : p ∈ mapSet m k v) : p = (k, v) ∨ p ∈ m := by
  unfold mapSet at h
  by_cases hx : (m.lookup k).isSome
  · simp only [hx, if_true] at h
    obtain ⟨q, hq, he⟩ := List.mem_map.mp h
    by_cases h1 : q.1 = k
    · left; rw [← he]; simp [h1]
    · right; rw [← he]; simpa [h1] using hq
  · simp only [hx, if_false] at h
    rcases List.mem_append.mp h with h | h
    · right; exact h
    · left; simpa using h

/-! ## Lemmas about the LRU seen-set -/

theorem lruEvict_of_le (seen order : List String)
    (h : order.length ≤ MAX_SEEN_MESSAGES) : lruEvict seen order = (seen, order) := by
  cases order with
  | nil => rfl
  | cons a rest =>
    have hc : ¬ MAX_SEEN_MESSAGES < rest.length + 1 := by
      simp only [List.length_cons] at h; omega
    simp [lruEvict, hc]

theorem lruEvict_single (seen : List String) (a : String) (rest : List String)
    (h : (a :: rest).length = MAX_SEEN_MESSAGES + 1) (ha : a ≠ "") :
    lruEvict seen (a :: rest) = (seen.erase a, rest) := by
  have h1 : MAX_SEEN_MESSAGES < rest.length + 1 := by
    simp only [List.length_cons] at h; omega
  have h2 : rest.length ≤ MAX_SEEN_MESSAGES := by
    simp only [List.length_cons] at h; omega
  simp [lruEvict, h1, ha, lruEvict_of_le _ _ h2]

theorem contains_eq_mem (l : List String) (k : String) :
    l.contains k = true ↔ k ∈ l := by
  simp [List.contains_iff_exists_mem_beq, beq_iff_eq]

theorem addSeenMessage_mem (s : InternalSession) (k : String)
    (h : k ∈ s.seenMessages) : addSeenMessage s k = s := by
  unfold addSeenMessage
  rw [if_pos ((contains_eq_mem _ _).mpr h)]

theorem addSeenMessage_fresh (s : InternalSession) (k : String)
    (hGood : GoodSeen s) (hk : k ∉ s.seenMessagesOrder) (hne : k ≠ "") :
    addSeenMessage s k =
      { s with seenMessages := pushSeen s.seenMessagesOrder k
               seenMessagesOrder := pushSeen s.seenMessagesOrder k } := by
  obtain ⟨hseen, hnodup, hempty, hlen⟩ := hGood
  unfold addSeenMessage
  have hc : s.seenMessages.contains k = false := by
    rw [hseen]
    cases hx : s.seenMessagesOrder.contains k
    · rfl
    · exact absurd ((contains_eq_mem _ _).mp hx) hk
  simp only [hc, Bool.false_eq_true, if_false]
  rw [hseen]
  by_cases hfull : s.seenMessagesOrder.length = MAX_SEEN_MESSAGES
  · cases horder : s.seenMessagesOrder with
    | nil => rw [horder] at hfull; simp [MAX_SEEN_MESSAGES] at hfull
    | cons a t =>
      have ha : a ≠ "" := by
        rw [horder] at hempty
        intro hcon; exact hempty (hcon ▸ List.mem_cons_self a t)
      have hlen2 : ((a :: t) ++ [k]).length = MAX_SEEN_MESSAGES + 1 := by
        rw [← horder, List.length_append, hfull]; simp
      have : (a :: t) ++ [k] = a :: (t ++ [k]) := by simp
      rw [this] at hlen2
      have hev := lruEvict_single (a :: (t ++ [k])) a (t ++ [k]) hlen2 ha
      simp only [this, hev]
      have herase : (a :: (t ++ [k])).erase a = t ++ [k] := List.erase_cons_head a _
      rw [herase]
      unfold pushSeen
      have ht : t.length + 1 = MAX_SEEN_MESSAGES := by
        rw [horder] at hfull; simpa using hfull
      simp [horder, ht]
  · have hlt : s.seenMessagesOrder.length < MAX_SEEN_MESSAGES := by omega
    have hle : (s.seenMessagesOrder ++ [k]).length ≤ MAX_SEEN_MESSAGES := by
      simp [List.length_append]; omega
    rw [lruEvict_of_le _ _ hle]
    unfold pushSeen
    simp [hfull]

theorem pushSeen_good (l : List String) (k : String) (hnodup : l.Nodup)
    (hempty : "" ∉ l) (hlen : l.length ≤ MAX_SEEN_MESSAGES)
    (hk : k ∉ l) (hne : k ≠ "") :
    (pushSeen l k).Nodup ∧ "" ∉ pushSeen l k ∧
    (pushSeen l k).length ≤ MAX_SEEN_MESSAGES ∧
    k ∈ pushSeen l k ∧ ∀ x ∈ pushSeen l k, x = k ∨ x ∈ l := by
  unfold pushSeen
  by_cases hfull : l.length = MAX_SEEN_MESSAGES
  · simp only [hfull, if_true]
    have htail : l.tail.Sublist l := List.tail_sublist l
    refine ⟨?_, ?_, ?_, ?_, ?_⟩
    · rw [List.nodup_append]
      refine ⟨hnodup.sublist htail, List.nodup_singleton k, ?_⟩
      intro x hx hx2
      simp at hx2
      subst hx2
      exact hk (htail.mem hx)
    · intro hmem
      rcases List.mem_append.mp hmem with h | h
      · exact hempty (htail.mem h)
      · simp at h; exact hne h.symm
    · cases l with
      | nil => simp [MAX_SEEN_MESSAGES] at hfull
      | cons a t =>
        simp only [List.length_cons] at hfull
        simp [List.tail_cons]
        omega
    · simp
    · intro x hx
      rcases List.mem_append.mp hx with h | h
      · exact Or.inr (htail.mem h)
      · simp at h; exact Or.inl h
  · simp only [hfull, if_false]
    refine ⟨?_, ?_, ?_, ?_, ?_⟩
    · rw [List.nodup_append]
      exact ⟨hnodup, List.nodup_singleton k, by
        intro x hx hx2; simp at hx2; subst hx2; exact hk hx⟩
    · intro hmem
      rcases List.mem_append.mp hmem with h | h
      · exact hempty h
      · simp at h; exact hne h.symm
    · simp [List.length_append]; omega
    · simp
    · intro x hx
      rcases List.mem_append.mp hx with h | h
      · exact Or.inr h
      · simp at h; exact Or.inl h

theorem addSeenMessage_fresh_good (s : InternalSession) (k : String)
    (hGood : GoodSeen s) (hk : k ∉ s.seenMessagesOrder) (hne : k ≠ "") :
    GoodSeen (addSeenMessage s k) ∧ k ∈ (addSeenMessage s k).seenMessages := by
  obtain ⟨hseen, hnodup, hempty, hlen⟩ := hGood
  rw [addSeenMessage_fresh s k ⟨hseen, hnodup, hempty, hlen⟩ hk hne]
  obtain ⟨h1, h2, h3, h4, _⟩ := pushSeen_good s.seenMessagesOrder k hnodup hempty hlen hk hne
  exact ⟨⟨rfl, h1, h2, h3⟩, h4⟩

/-! ## Claim C4: the input round trip -/

/-- Claim C4: when `sendInput(sessionId, text)` is called for a session with
a live bound connection, the connection receives exactly two input frames in
order — first `{"type":"input","text":<text>}` and then, 100 ms (within
150 ms) later, `{"type":"input","text":"\r"}` — and `sendInput` returns
`true`. -/
theorem C4_input_roundtrip (ms : ManagerState) (sessionId text : String)
    (session : InternalSession)
    (h : ms.sessions.lookup sessionId = some session) :
    sendInput ms sessionId text true =
      (ms, [⟨session.socket, 0, .input text⟩,
            ⟨session.socket, 100, .input "\r"⟩], [], true)
    ∧ (100 : Nat) ≤ 150 := by
  constructor
  · simp [sendInput, h]
  · omega

/-- Witness for C4 at the concrete live session `sess0`. -/
theorem C4_input_roundtrip_witness :
    sendInput msA "S" "hello" true =
      (msA, [⟨sess0.socket, 0, .input "hello"⟩,
             ⟨sess0.socket, 100, .input "\r"⟩], [], true)
    ∧ (100 : Nat) ≤ 150 :=
  C4_input_roundtrip msA "S" "hello" sess0 (by rfl)

/-! ## Claim C7: what session end does (and does not do) to pending
permissions -/

/-- Claim C7 counterexample: the claim says that at session end all pending
permission requests of the session are cancelled and dropped so that no
later decision can produce a `permission_response`.  In the concrete trace
`c7evs` the session ends via an explicit `session_end` frame while an
AskUserQuestion permission request is pending, and yet the later user
decision still writes a `permission_response` frame to the stored
connection: the pending entries were not removed. -/
theorem C7_counterexample :
    (runM env0 msEmpty c7evs).emissions =
      [.sessionStart "S", .sessionEnd "S"]
    ∧ (runM env0 msEmpty c7evs).writes =
      [⟨1, 0, .permissionResponse "r1" ⟨.allow, none, some [("0", "yes")]⟩⟩] :=
  ⟨rfl, rfl⟩

/-- Claim C7 (amended): when a session ends via a `session_end` frame the
session record is removed and session-end is emitted, but the pending
permission entries (both maps) are left untouched; a decision arriving
after session end for a pending request id still writes a
`permission_response` to the stored connection. -/
theorem C7_pending_survive_session_end (env : Env) (ms : ManagerState)
    (sid : String) (sess : InternalSession) (sock2 : SocketId)
    (r : String) (psock : SocketId) (d : Decision)
    (hs : ms.sessions.lookup sid = some sess)
    (hp : ms.pendingPermissions.lookup r = some psock) :
    (step env ms (.frame sock2 (.sessionEnd sid))).emissions = [.sessionEnd sid]
    ∧ (step env ms (.frame sock2 (.sessionEnd sid))).state.pendingPermissions =
        ms.pendingPermissions
    ∧ (step env ms (.frame sock2 (.sessionEnd sid))).state.pendingAskUserQuestions =
        ms.pendingAskUserQuestions
    ∧ (step env (step env ms (.frame sock2 (.sessionEnd sid))).state
        (.adapterDecision r d)).writes = [⟨psock, 0, .permissionResponse r d⟩] := by
  refine ⟨?_, ?_, ?_, ?_⟩ <;>
    simp [step, handleSessionMessage, hs, sendPermissionDecision, hp]

/-- Witness for the amended C7 at a concrete state with a live session and a
pending permission. -/
theorem C7_pending_survive_session_end_witness :
    (step env0 ⟨[("S", sess0)], [("r1", 1)], [("S", "r1")]⟩
      (.frame 1 (.sessionEnd "S"))).emissions = [.sessionEnd "S"]
    ∧ (step env0 ⟨[("S", sess0)], [("r1", 1)], [("S", "r1")]⟩
        (.frame 1 (.sessionEnd "S"))).state.pendingPermissions = [("r1", 1)]
    ∧ (step env0 ⟨[("S", sess0)], [("r1", 1)], [("S", "r1")]⟩
        (.frame 1 (.sessionEnd "S"))).state.pendingAskUserQuestions = [("S", "r1")]
    ∧ (step env0 (step env0 ⟨[("S", sess0)], [("r1", 1)], [("S", "r1")]⟩
        (.frame 1 (.sessionEnd "S"))).state
        (.adapterDecision "r1" ⟨.allow, none, none⟩)).writes =
        [⟨1, 0, .permissionResponse "r1" ⟨.allow, none, none⟩⟩] :=
  C7_pending_survive_session_end env0 ⟨[("S", sess0)], [("r1", 1)], [("S", "r1")]⟩
    "S" sess0 1 "r1" 1 ⟨.allow, none, none⟩ (by rfl) (by rfl)

/-! ## Claim C8: per-request-id isolation of permission flows -/

/-- Claim C8 counterexample: the claim says multiple outstanding requests of
one session are each tracked by their own request id — including
AskUserQuestion requests — and no decision for one loses the pending state
of another.  In the concrete trace `c8evs` two AskUserQuestion requests
`r1`, `r2` of session "S" are outstanding; the arrival of `r2` replaces the
session's answerable mapping (`pendingAskUserQuestions` is keyed by session
id, not request id), the single ask-user decision resolves `r2` rather than
`r1`, and afterwards no ask-user decision can ever resolve `r1`, which stays
pending forever. -/
theorem C8_counterexample :
    (runM env0 msEmpty c8evs).state.pendingAskUserQuestions.lookup "S" = some "r2"
    ∧ (runM env0 msEmpty c8evs).state.pendingPermissions.lookup "r1" = some 1
    ∧ (step env0 (runM env0 msEmpty c8evs).state
        (.askAllow "S" [("0", "a")])).writes =
        [⟨1, 0, .permissionResponse "r2" ⟨.allow, none, some [("0", "a")]⟩⟩]
    ∧ (step env0 (step env0 (runM env0 msEmpty c8evs).state
        (.askAllow "S" [("0", "a")])).state (.askAllow "S" [("0", "b")])).writes = [] :=
  ⟨rfl, rfl, rfl, rfl⟩

/-- Claim C8 (amended): decisions are strictly serialized per request id for
ordinary (non-AskUserQuestion) requests — resolving one outstanding request
writes only that request's response and leaves any other outstanding
request's pending entry untouched — but AskUserQuestion pending state is
keyed by session id, so a newer AskUserQuestion request of the same session
replaces the session's answerable mapping (at most one AskUserQuestion per
session is answerable at a time). -/
theorem C8_per_request_isolation (env : Env) (ms : ManagerState)
    (r1 r2 : String) (s1 s2 : SocketId) (d : Decision)
    (sock : SocketId) (sid input rNew : String)
    (h12 : r1 ≠ r2)
    (hp1 : ms.pendingPermissions.lookup r1 = some s1)
    (hp2 : ms.pendingPermissions.lookup r2 = some s2) :
    (sendPermissionDecision ms r1 d).2 = [⟨s1, 0, .permissionResponse r1 d⟩]
    ∧ (sendPermissionDecision ms r1 d).1.pendingPermissions.lookup r2 = some s2
    ∧ (step env ms (.frame sock
        (.permissionRequest rNew "AskUserQuestion" input sid))).state.pendingAskUserQuestions.lookup
          sid = some rNew := by
  have h21 : r2 ≠ r1 := fun h => h12 h.symm
  refine ⟨?_, ?_, ?_⟩
  · simp [sendPermissionDecision, hp1]
  · simp [sendPermissionDecision, hp1, lookup_mapDelete, h21, hp2]
  · simp [step, handleSessionMessage, lookup_mapSet_self]

/-- Witness for the amended C8 at a concrete state with two pending
requests. -/
theorem C8_per_request_isolation_witness :
    (sendPermissionDecision ⟨[], [("r1", 1), ("r2", 2)], []⟩ "r1"
      ⟨.deny, none, none⟩).2 = [⟨1, 0, .permissionResponse "r1" ⟨.deny, none, none⟩⟩]
    ∧ (sendPermissionDecision ⟨[], [("r1", 1), ("r2", 2)], []⟩ "r1"
        ⟨.deny, none, none⟩).1.pendingPermissions.lookup "r2" = some 2
    ∧ (step env0 ⟨[], [("r1", 1), ("r2", 2)], []⟩ (.frame 3
        (.permissionRequest "r9" "AskUserQuestion" "x" "S"))).state.pendingAskUserQuestions.lookup
          "S" = some "r9" :=
  C8_per_request_isolation env0 ⟨[], [("r1", 1), ("r2", 2)], []⟩ "r1" "r2" 1 2
    ⟨.deny, none, none⟩ 3 "S" "x" "r9" (by decide) (by rfl) (by rfl)

/-! ## Claim C6: YOLO auto-allow -/

/-- Claim C6 counterexample: the claim quantifies over every incoming
`permission_request` of a YOLO session.  (1) An AskUserQuestion
permission request of a YOLO session is parked for answer collection, not
immediately answered: no `permission_response` is written and no
notification is posted.  (2) When no chat thread is resolvable, a YOLO
auto-allow answers the request but posts no YOLO notification. -/
theorem C6_counterexample :
    (combinedPermissionRequest msEmpty dsYolo 7 "q1" "AskUserQuestion" "x" "S"
      (.found "T")).2.2.1 = []
    ∧ (combinedPermissionRequest msEmpty dsYolo 7 "q1" "AskUserQuestion" "x" "S"
        (.found "T")).2.2.2 = []
    ∧ (combinedPermissionRequest msEmpty dsYolo 7 "q2" "Bash" "x" "S"
        .noneAvailable).2.2.1 =
        [⟨7, 0, .permissionResponse "q2" ⟨.allow, none, none⟩⟩]
    ∧ (combinedPermissionRequest msEmpty dsYolo 7 "q2" "Bash" "x" "S"
        .noneAvailable).2.2.2 = [] :=
  ⟨rfl, rfl, rfl, rfl⟩

/-- Claim C6 (amended): for every incoming non-AskUserQuestion
`permission_request` whose session is in the YOLO set, the request is
immediately answered with an allow `permission_response`, no pending entry
for user interaction is registered on the Discord side, and — when the
session's chat thread is resolvable — a YOLO notification is posted to it;
no permission UI is posted for the request. -/
theorem C6_yolo_autoallow (ms : ManagerState) (ds : DiscordState)
    (sock : SocketId) (requestId toolName toolInput sessionId threadId : String)
    (hyolo : sessionId ∈ ds.yoloSessions)
    (htool : toolName ≠ "AskUserQuestion") :
    (combinedPermissionRequest ms ds sock requestId toolName toolInput sessionId
      (.found threadId)).2.2.1 =
      [⟨sock, 0, .permissionResponse requestId ⟨.allow, none, none⟩⟩]
    ∧ (combinedPermissionRequest ms ds sock requestId toolName toolInput sessionId
        (.found threadId)).2.2.2 = [.yoloNote toolName]
    ∧ (combinedPermissionRequest ms ds sock requestId toolName toolInput sessionId
        (.found threadId)).2.1.pendingPermissions = ds.pendingPermissions
    ∧ (combinedPermissionRequest ms ds sock requestId toolName toolInput sessionId
        (.found threadId)).1.pendingPermissions.lookup requestId = none := by
  refine ⟨?_, ?_, ?_, ?_⟩ <;>
    simp [combinedPermissionRequest, permissionRequestHandler, htool, hyolo,
      sendPermissionDecision, lookup_mapSet_self, lookup_mapDelete]

/-- Witness for the amended C6 at a concrete YOLO session. -/
theorem C6_yolo_autoallow_witness :
    (combinedPermissionRequest msEmpty dsYolo 7 "q3" "Bash" "ls" "S"
      (.found "T")).2.2.1 =
      [⟨7, 0, .permissionResponse "q3" ⟨.allow, none, none⟩⟩]
    ∧ (combinedPermissionRequest msEmpty dsYolo 7 "q3" "Bash" "ls" "S"
        (.found "T")).2.2.2 = [.yoloNote "Bash"]
    ∧ (combinedPermissionRequest msEmpty dsYolo 7 "q3" "Bash" "ls" "S"
        (.found "T")).2.1.pendingPermissions = dsYolo.pendingPermissions
    ∧ (combinedPermissionRequest msEmpty dsYolo 7 "q3" "Bash" "ls" "S"
        (.found "T")).1.pendingPermissions.lookup "q3" = none :=
  C6_yolo_autoallow msEmpty dsYolo 7 "q3" "Bash" "ls" "S" "T"
    (by decide) (by decide)

/-! ## Claim C5: AskUserQuestion answer collection -/

theorem string_data_append (a b : String) : (a ++ b).data = a.data ++ b.data := by
  cases a; cases b; rfl

theorem string_eq_of_data (a b : String) (h : a.data = b.data) : a = b := by
  cases a; cases b; exact congrArg String.mk h

theorem string_append_left_cancel {a b c : String} (h : a ++ b = a ++ c) :
    b = c := by
  have hd : a.data ++ b.data = a.data ++ c.data := by
    have := congrArg String.data h
    simpa [string_data_append] using this
  exact string_eq_of_data _ _ (List.append_cancel_left hd)

theorem answer_key_ne (tid : String) {i j : Nat}
    (h : (toString i : String) ≠ toString j) :
    (tid ++ ":" ++ toString i : String) ≠ tid ++ ":" ++ toString j := by
  intro he
  apply h
  have : (tid ++ ":") ++ toString i = (tid ++ ":") ++ toString j := by
    simpa [String.append_assoc] using he
  exact string_append_left_cancel this

theorem collectAnswers_none (pa : List (String × String)) (tid : String)
    (n : Nat) (j : Nat) (hj : j < n) (hbad : badAnswerAt pa tid j) :
    collectAnswers pa tid n = none := by
  induction n with
  | zero => omega
  | succ m ih =>
    by_cases hjm : j = m
    · rw [hjm] at hbad
      unfold collectAnswers
      cases hc : collectAnswers pa tid m with
      | none => simp [hc]
      | some acc =>
        rcases hbad with hb | hb <;> simp [hc, hb]
    · have hlt : j < m := by omega
      unfold collectAnswers
      rw [ih hlt]

theorem keys_distinct_two : ∀ i j : Nat, i < 2 → j < 2 → i ≠ j →
    (toString i : String) ≠ toString j := by
  intro i j hi hj hne
  interval_cases i <;> interval_cases j <;> first | omega | decide

theorem collectAnswers_complete (pa : List (String × String)) (tid : String)
    (n : Nat) (f : Nat → String)
    (h : ∀ j, j < n → pa.lookup (tid ++ ":" ++ toString j) = some (f j) ∧ f j ≠ "") :
    collectAnswers pa tid n = some ((List.range n).map (fun i => (toString i, f i))) := by
  induction n with
  | zero => rfl
  | succ m ih =>
    have hm := h m (by omega)
    unfold collectAnswers
    rw [ih (fun j hj => h j (by omega)), hm.1]
    simp [hm.2, List.range_succ]

/-- Claim C5: for an AskUserQuestion (structured-question) permission request
with n sub-questions, (i) its arrival emits no generic permission request —
no handler call, no write, no emission; (ii) while any of the n questions
still lacks a captured (non-empty) answer, capturing an answer sends no
decision and leaves the manager untouched; (iii) when the last missing
answer is captured, `allowPendingAskUserQuestion` causes exactly one
`permission_response` whose decision has behavior allow and whose
`updatedInput.answers` maps `"0"`..`"n-1"` to the captured answers. -/
theorem C5_askuser_flow (env : Env) (ds : DiscordState) (ms : ManagerState)
    (tid : String) (pending : PendingQuestionEntry)
    (r : String) (sock : SocketId) (qIdx : Nat) (answer : String) (f : Nat → String)
    (hpq : ds.pendingQuestions.lookup tid = some pending)
    (hq : qIdx < pending.questions.length)
    (hkeys : ∀ i j : Nat, i < pending.questions.length →
      j < pending.questions.length → i ≠ j → (toString i : String) ≠ toString j)
    (hask : ms.pendingAskUserQuestions.lookup pending.sessionId = some r)
    (hperm : ms.pendingPermissions.lookup r = some sock) :
    -- (i) arrival of an AskUserQuestion request: nothing emitted upward
    (∀ (ms' : ManagerState) (sock' : SocketId) (input : String),
      (step env ms' (.frame sock'
        (.permissionRequest r "AskUserQuestion" input pending.sessionId))).writes = []
      ∧ (step env ms' (.frame sock'
          (.permissionRequest r "AskUserQuestion" input pending.sessionId))).handlerCalls = []
      ∧ (step env ms' (.frame sock'
          (.permissionRequest r "AskUserQuestion" input pending.sessionId))).emissions = [])
    -- (ii) an answer capture while another question is missing: no decision
    ∧ ((∃ j, j < pending.questions.length ∧ j ≠ qIdx ∧
          badAnswerAt ds.pendingAnswers tid j) →
        (handleAnswerCapture ds ms tid qIdx answer).2.2 = []
        ∧ (handleAnswerCapture ds ms tid qIdx answer).2.1 = ms)
    -- (iii) capturing the last missing answer: exactly one allow response
    ∧ ((∀ j, j < pending.questions.length → j ≠ qIdx →
          ds.pendingAnswers.lookup (tid ++ ":" ++ toString j) = some (f j) ∧ f j ≠ "") →
        answer ≠ "" →
        (handleAnswerCapture ds ms tid qIdx answer).2.2 =
          [⟨sock, 0, .permissionResponse r
            ⟨.allow, none, some ((List.range pending.questions.length).map
              (fun i => (toString i, if i = qIdx then answer else f i)))⟩⟩]) := by
  refine ⟨?_, ?_, ?_⟩
  · intro ms' sock' input
    refine ⟨?_, ?_, ?_⟩ <;> simp [step, handleSessionMessage]
  · rintro ⟨j, hj, hjq, hbad⟩
    have hkey : (tid ++ ":" ++ toString j : String) ≠ tid ++ ":" ++ toString qIdx :=
      answer_key_ne tid (hkeys j qIdx hj hq hjq)
    have hbad' : badAnswerAt
        (mapSet ds.pendingAnswers (tid ++ ":" ++ toString qIdx) answer) tid j := by
      unfold badAnswerAt at hbad ⊢
      rw [lookup_mapSet_ne _ _ _ _ hkey]
      exact hbad
    have hnone : collectAnswers
        (mapSet ds.pendingAnswers (tid ++ ":" ++ toString qIdx) answer) tid
        pending.questions.length = none :=
      collectAnswers_none _ tid _ j hj hbad'
    constructor <;>
      simp [handleAnswerCapture, hpq, hq, trySubmitAllAnswers, getAllAnswers, hnone]
  · intro hall hans
    have hcomplete : collectAnswers
        (mapSet ds.pendingAnswers (tid ++ ":" ++ toString qIdx) answer) tid
        pending.questions.length =
        some ((List.range pending.questions.length).map
          (fun i => (toString i, if i = qIdx then answer else f i))) := by
      apply collectAnswers_complete
      intro j hj
      by_cases hjq : j = qIdx
      · subst hjq
        simp [lookup_mapSet_self, hans]
      · have hkey : (tid ++ ":" ++ toString j : String) ≠ tid ++ ":" ++ toString qIdx :=
          answer_key_ne tid (hkeys j qIdx hj hq hjq)
        rw [lookup_mapSet_ne _ _ _ _ hkey]
        have := hall j hj hjq
        simp [hjq, this.1, this.2]
    simp [handleAnswerCapture, hpq, hq, trySubmitAllAnswers, getAllAnswers,
      hcomplete, allowPendingAskUserQuestion, hask,
      sendAskUserQuestionResponse, hperm]

/-- Witness for C5: a two-question AskUserQuestion set; answering question 0
alone sends nothing, answering question 1 afterwards sends the single allow
response carrying `{ "0": "a0", "1": "a1" }`. -/
theorem C5_askuser_flow_witness :
    ((step env0 msEmpty (.frame 7
        (.permissionRequest "r1" "AskUserQuestion" "x" "S"))).writes = []
      ∧ (step env0 msEmpty (.frame 7
          (.permissionRequest "r1" "AskUserQuestion" "x" "S"))).handlerCalls = []
      ∧ (step env0 msEmpty (.frame 7
          (.permissionRequest "r1" "AskUserQuestion" "x" "S"))).emissions = [])
    ∧ ((handleAnswerCapture
          ⟨[("tu1", ⟨"S", "tu1", [⟨"q0", "h0", [("a", "d")], false⟩,
            ⟨"q1", "h1", [("b", "d")], false⟩]⟩)], [], [], [], []⟩
          ⟨[], [("r1", 7)], [("S", "r1")]⟩ "tu1" 0 "a0").2.2 = []
        ∧ (handleAnswerCapture
            ⟨[("tu1", ⟨"S", "tu1", [⟨"q0", "h0", [("a", "d")], false⟩,
              ⟨"q1", "h1", [("b", "d")], false⟩]⟩)], [], [], [], []⟩
            ⟨[], [("r1", 7)], [("S", "r1")]⟩ "tu1" 0 "a0").2.1 =
            ⟨[], [("r1", 7)], [("S", "r1")]⟩)
    ∧ (handleAnswerCapture
        ⟨[("tu1", ⟨"S", "tu1", [⟨"q0", "h0", [("a", "d")], false⟩,
          ⟨"q1", "h1", [("b", "d")], false⟩]⟩)], [], [("tu1:0", "a0")], [], []⟩
        ⟨[], [("r1", 7)], [("S", "r1")]⟩ "tu1" 1 "a1").2.2 =
        [⟨7, 0, .permissionResponse "r1"
          ⟨.allow, none, some [("0", "a0"), ("1", "a1")]⟩⟩] := by
  refine ⟨?_, ?_, ?_⟩
  · exact (C5_askuser_flow env0
      ⟨[("tu1", ⟨"S", "tu1", [⟨"q0", "h0", [("a", "d")], false⟩,
        ⟨"q1", "h1", [("b", "d")], false⟩]⟩)], [], [], [], []⟩
      ⟨[], [("r1", 7)], [("S", "r1")]⟩ "tu1"
      ⟨"S", "tu1", [⟨"q0", "h0", [("a", "d")], false⟩,
        ⟨"q1", "h1", [("b", "d")], false⟩]⟩ "r1" 7 0 "a0" (fun _ => "a1")
      (by rfl) (by decide) keys_distinct_two (by rfl) (by rfl)).1 msEmpty 7 "x"
  · exact (C5_askuser_flow env0
      ⟨[("tu1", ⟨"S", "tu1", [⟨"q0", "h0", [("a", "d")], false⟩,
        ⟨"q1", "h1", [("b", "d")], false⟩]⟩)], [], [], [], []⟩
      ⟨[], [("r1", 7)], [("S", "r1")]⟩ "tu1"
      ⟨"S", "tu1", [⟨"q0", "h0", [("a", "d")], false⟩,
        ⟨"q1", "h1", [("b", "d")], false⟩]⟩ "r1" 7 0 "a0" (fun _ => "a1")
      (by rfl) (by decide) keys_distinct_two (by rfl) (by rfl)).2.1
      ⟨1, by decide, by decide, by simp [badAnswerAt, List.lookup]⟩
  · exact (C5_askuser_flow env0
      ⟨[("tu1", ⟨"S", "tu1", [⟨"q0", "h0", [("a", "d")], false⟩,
        ⟨"q1", "h1", [("b", "d")], false⟩]⟩)], [], [("tu1:0", "a0")], [], []⟩
      ⟨[], [("r1", 7)], [("S", "r1")]⟩ "tu1"
      ⟨"S", "tu1", [⟨"q0", "h0", [("a", "d")], false⟩,
        ⟨"q1", "h1", [("b", "d")], false⟩]⟩ "r1" 7 1 "a1" (fun _ => "a0")
      (by rfl) (by decide) keys_distinct_two (by rfl) (by rfl)).2.2
      (by intro j hj hjq
          have hj2 : j < 2 := by simpa using hj
          interval_cases j
          · exact ⟨by rfl, by decide⟩
          · omega)
      (by decide)

/-! ## Stability infrastructure: what the steps do not touch -/

theorem mem_of_lookup_eq_some {β : Type} {m : List (String × β)} {k : String}
    {v : β} (h : m.lookup k = some v) : (k, v) ∈ m := by
  induction m with
  | nil => simp [List.lookup] at h
  | cons a t ih =>
    obtain ⟨a1, a2⟩ := a
    rw [lookup_cons_eqn] at h
    by_cases he : k = a1
    · simp only [he, if_true] at h
      subst he
      cases h
      exact List.mem_cons_self _ _
    · simp only [he, if_false] at h
      exact List.mem_cons_of_mem _ (ih h)

theorem sameStable_refl (s : InternalSession) : SameStable s s :=
  ⟨rfl, rfl, rfl, rfl, rfl, rfl⟩

theorem sameStable_trans {a b c : InternalSession} (h1 : SameStable a b)
    (h2 : SameStable b c) : SameStable a c := by
  obtain ⟨x1, x2, x3, x4, x5, x6⟩ := h1
  obtain ⟨y1, y2, y3, y4, y5, y6⟩ := h2
  exact ⟨y1.trans x1, y2.trans x2, y3.trans x3, y4.trans x4, y5.trans x5, y6.trans x6⟩

theorem addSeenMessage_stable (s : InternalSession) (k : String) :
    SameStable s (addSeenMessage s k) := by
  unfold addSeenMessage
  split
  · exact sameStable_refl s
  · exact ⟨rfl, rfl, rfl, rfl, rfl, rfl⟩

theorem addSeenMessage_status (s : InternalSession) (k : String) :
    (addSeenMessage s k).status = s.status := by
  unfold addSeenMessage
  split <;> rfl

theorem addSeenMessage_id (s : InternalSession) (k : String) :
    (addSeenMessage s k).id = s.id := by
  unfold addSeenMessage
  split <;> rfl

theorem addSeenMessage_socket (s : InternalSession) (k : String) :
    (addSeenMessage s k).socket = s.socket := by
  unfold addSeenMessage
  split <;> rfl

theorem addSeenMessage_startedAt (s : InternalSession) (k : String) :
    (addSeenMessage s k).startedAt = s.startedAt := by
  unfold addSeenMessage
  split <;> rfl

theorem addSeenMessage_jsonlPath (s : InternalSession) (k : String) :
    (addSeenMessage s k).jsonlPath = s.jsonlPath := by
  unfold addSeenMessage
  split <;> rfl

theorem addSeenMessage_size (s : InternalSession) (k : String) :
    (addSeenMessage s k).lastProcessedSize = s.lastProcessedSize := by
  unfold addSeenMessage
  split <;> rfl

theorem addSeenMessage_processing (s : InternalSession) (k : String) :
    (addSeenMessage s k).processing = s.processing := by
  unfold addSeenMessage
  split <;> rfl

theorem noEnd_append {es es' : List Emission} (h : NoEnd es) (h' : NoEnd es') :
    NoEnd (es ++ es') := by
  intro e he x
  rcases List.mem_append.mp he with hm | hm
  · exact h e hm x
  · exact h' e hm x

theorem noEnd_single {e' : Emission} (h : ∀ x, e' ≠ Emission.sessionEnd x) :
    NoEnd [e'] := by
  intro e he x
  simp at he
  subst he
  exact h x

theorem slugStep_stable (slug : Option String) (acc : InternalSession × List Emission) :
    SameStable acc.1 (slugStep slug acc).1 := by
  unfold SameStable slugStep
  dsimp only
  refine ⟨?_, ?_, ?_, ?_, ?_, ?_⟩ <;> (repeat' split) <;> rfl

theorem slugStep_noEnd (slug : Option String) (acc : InternalSession × List Emission)
    (h : NoEnd acc.2) : NoEnd (slugStep slug acc).2 := by
  unfold slugStep
  dsimp only
  repeat' split
  all_goals first
    | exact h
    | exact noEnd_append h (noEnd_single (by intro x; simp))

theorem todosStep_stable (hash : String → String) (todos? : Option (List RawTodo))
    (acc : InternalSession × List Emission) :
    SameStable acc.1 (todosStep hash todos? acc).1 := by
  unfold SameStable todosStep
  dsimp only
  refine ⟨?_, ?_, ?_, ?_, ?_, ?_⟩ <;> (repeat' split) <;> rfl

theorem todosStep_noEnd (hash : String → String) (todos? : Option (List RawTodo))
    (acc : InternalSession × List Emission) (h : NoEnd acc.2) :
    NoEnd (todosStep hash todos? acc).2 := by
  unfold todosStep
  dsimp only
  repeat' split
  all_goals first
    | exact h
    | exact noEnd_append h (noEnd_single (by intro x; simp))

theorem planModeStep_stable (type : Option String) (message : Option LogMessage)
    (acc : InternalSession × List Emission) :
    SameStable acc.1 (planModeStep type message acc).1 := by
  unfold SameStable planModeStep
  dsimp only
  refine ⟨?_, ?_, ?_, ?_, ?_, ?_⟩ <;> (repeat' split) <;> rfl

theorem planModeStep_noEnd (type : Option String) (message : Option LogMessage)
    (acc : InternalSession × List Emission) (h : NoEnd acc.2) :
    NoEnd (planModeStep type message acc).2 := by
  unfold planModeStep
  dsimp only
  repeat' split
  all_goals first
    | exact h
    | exact noEnd_append h (noEnd_single (by intro x; simp))

theorem toolCallStep_stable (type : Option String) (message : Option LogMessage)
    (acc : InternalSession × List Emission) :
    SameStable acc.1 (toolCallStep type message acc).1 := by
  unfold SameStable toolCallStep
  dsimp only
  refine ⟨?_, ?_, ?_, ?_, ?_, ?_⟩ <;> (repeat' split) <;> rfl

theorem toolCallStep_noEnd (type : Option String) (message : Option LogMessage)
    (acc : InternalSession × List Emission) (h : NoEnd acc.2) :
    NoEnd (toolCallStep type message acc).2 := by
  unfold toolCallStep
  dsimp only
  repeat' split
  all_goals try exact h
  refine noEnd_append h ?_
  intro e he x
  obtain ⟨b, _, hb⟩ := List.mem_filterMap.mp he
  split at hb
  · cases hb; simp
  · cases hb

theorem toolResultStep_stable (type : Option String) (message : Option LogMessage)
    (acc : InternalSession × List Emission) :
    SameStable acc.1 (toolResultStep type message acc).1 := by
  unfold SameStable toolResultStep
  dsimp only
  refine ⟨?_, ?_, ?_, ?_, ?_, ?_⟩ <;> (repeat' split) <;> rfl

theorem toolResultStep_noEnd (type : Option String) (message : Option LogMessage)
    (acc : InternalSession × List Emission) (h : NoEnd acc.2) :
    NoEnd (toolResultStep type message acc).2 := by
  unfold toolResultStep
  dsimp only
  repeat' split
  all_goals try exact h
  refine noEnd_append h ?_
  intro e he x
  obtain ⟨b, _, hb⟩ := List.mem_filterMap.mp he
  split at hb
  · cases hb; simp
  · cases hb

set_option maxHeartbeats 1600000 in
theorem chatStep_stable (hash : String → String) (now : Nat) (type : Option String)
    (isMeta : Bool) (subtype : Option String) (timestamp : Option Nat)
    (message : Option LogMessage) (acc : InternalSession × List Emission) :
    SameStable acc.1 (chatStep hash now type isMeta subtype timestamp message acc).1 := by
  unfold SameStable chatStep
  dsimp only
  refine ⟨?_, ?_, ?_, ?_, ?_, ?_⟩ <;> (repeat' split) <;>
    simp [addSeenMessage_id, addSeenMessage_socket, addSeenMessage_startedAt,
      addSeenMessage_jsonlPath, addSeenMessage_size, addSeenMessage_processing]

theorem chatStep_noEnd (hash : String → String) (now : Nat) (type : Option String)
    (isMeta : Bool) (subtype : Option String) (timestamp : Option Nat)
    (message : Option LogMessage) (acc : InternalSession × List Emission)
    (h : NoEnd acc.2) :
    NoEnd (chatStep hash now type isMeta subtype timestamp message acc).2 := by
  unfold chatStep
  dsimp only
  repeat' split
  all_goals first
    | exact h
    | exact noEnd_append h (noEnd_single (by intro x; simp))
    | exact noEnd_append (noEnd_append h (noEnd_single (by intro x; simp)))
        (noEnd_single (by intro x; simp))

theorem processRecord_stable (hash : String → String) (now : Nat)
    (acc : InternalSession × List Emission) (data : LogRecord) :
    SameStable acc.1 (processRecord hash now acc data).1 := by
  unfold processRecord
  exact sameStable_trans
    (sameStable_trans
      (sameStable_trans
        (sameStable_trans
          (sameStable_trans (slugStep_stable _ _) (todosStep_stable _ _ _))
          (planModeStep_stable _ _ _))
        (toolCallStep_stable _ _ _))
      (toolResultStep_stable _ _ _))
    (chatStep_stable _ _ _ _ _ _ _ _)

theorem processRecord_noEnd (hash : String → String) (now : Nat)
    (acc : InternalSession × List Emission) (data : LogRecord)
    (h : NoEnd acc.2) : NoEnd (processRecord hash now acc data).2 := by
  unfold processRecord
  exact chatStep_noEnd _ _ _ _ _ _ _ _
    (toolResultStep_noEnd _ _ _
      (toolCallStep_noEnd _ _ _
        (planModeStep_noEnd _ _ _
          (todosStep_noEnd _ _ _
            (slugStep_noEnd _ _ h)))))

theorem processLine_stable (hash : String → String)
    (parse : String → Option LogRecord) (now : Nat)
    (acc : InternalSession × List Emission) (line : List Char) :
    SameStable acc.1 (processLine hash parse now acc line).1 := by
  unfold processLine
  dsimp only
  repeat' split
  all_goals first
    | exact sameStable_refl _
    | exact addSeenMessage_stable _ _
    | exact sameStable_trans (addSeenMessage_stable _ _) (processRecord_stable _ _ _ _)

theorem processLine_noEnd (hash : String → String)
    (parse : String → Option LogRecord) (now : Nat)
    (acc : InternalSession × List Emission) (line : List Char)
    (h : NoEnd acc.2) : NoEnd (processLine hash parse now acc line).2 := by
  unfold processLine
  dsimp only
  repeat' split
  all_goals first
    | exact h
    | exact processRecord_noEnd _ _ _ _ h

theorem foldProcessLine_stable (hash : String → String)
    (parse : String → Option LogRecord) (now : Nat) :
    ∀ (lines : List (List Char)) (acc : InternalSession × List Emission),
    SameStable acc.1 (lines.foldl (processLine hash parse now) acc).1 := by
  intro lines
  induction lines with
  | nil => intro acc; exact sameStable_refl _
  | cons l ls ih =>
    intro acc
    rw [List.foldl_cons]
    exact sameStable_trans (processLine_stable hash parse now acc l) (ih _)

theorem foldProcessLine_noEnd (hash : String → String)
    (parse : String → Option LogRecord) (now : Nat) :
    ∀ (lines : List (List Char)) (acc : InternalSession × List Emission),
    NoEnd acc.2 → NoEnd (lines.foldl (processLine hash parse now) acc).2 := by
  intro lines
  induction lines with
  | nil => intro acc h; exact h
  | cons l ls ih =>
    intro acc h
    rw [List.foldl_cons]
    exact ih _ (processLine_noEnd hash parse now acc l h)

theorem processJsonl_stable_socket (hash : String → String)
    (parse : String → Option LogRecord) (now : Nat) (s : InternalSession)
    (b : List Char) :
    (processJsonl hash parse now s b).1.socket = s.socket ∧
    (processJsonl hash parse now s b).1.id = s.id := by
  unfold processJsonl
  dsimp only
  repeat' split
  all_goals first
    | exact ⟨rfl, rfl⟩
    | exact ⟨((foldProcessLine_stable hash parse now _ _).2.1).trans rfl,
        ((foldProcessLine_stable hash parse now _ _).1).trans rfl⟩

theorem processJsonl_noEnd (hash : String → String)
    (parse : String → Option LogRecord) (now : Nat) (s : InternalSession)
    (b : List Char) : NoEnd (processJsonl hash parse now s b).2 := by
  unfold processJsonl
  dsimp only
  repeat' split
  all_goals first
    | exact foldProcessLine_noEnd hash parse now _ _ (by intro e he; simp at he)
    | (intro e he x; exact absurd he (List.not_mem_nil e))

/-- `ptyOutputStep` changes only the sessions map. -/
theorem ptyOutputStep_pendings (hash : String → String) (ms : ManagerState)
    (sid : String) (c : Option String) :
    (ptyOutputStep hash ms sid c).1.pendingPermissions = ms.pendingPermissions ∧
    (ptyOutputStep hash ms sid c).1.pendingAskUserQuestions = ms.pendingAskUserQuestions := by
  unfold ptyOutputStep
  dsimp only
  repeat' split
  all_goals exact ⟨rfl, rfl⟩

/-! ## Claim C2: at most one `permission_response` per pending request id -/

theorem respCount_append (r : String) (a b : List Write) :
    respCount r (a ++ b) = respCount r a + respCount r b := by
  simp [respCount, List.filter_append]

theorem sendPermissionDecision_other (ms : ManagerState) (r' : String)
    (d : Decision) (r : String) (hne : r ≠ r') :
    (sendPermissionDecision ms r' d).1.pendingPermissions.lookup r =
      ms.pendingPermissions.lookup r
    ∧ respCount r (sendPermissionDecision ms r' d).2 = 0 := by
  unfold sendPermissionDecision
  split
  · exact ⟨rfl, rfl⟩
  · have hb : (r' == r) = false := beq_eq_false_iff_ne.mpr fun h => hne h.symm
    constructor
    · simp [lookup_mapDelete, hne]
    · simp [respCount, isRespWrite, hb]

theorem sendPermissionDecision_self_some (ms : ManagerState) (r : String)
    (d : Decision) (sock : SocketId)
    (h : ms.pendingPermissions.lookup r = some sock) :
    (sendPermissionDecision ms r d).1.pendingPermissions.lookup r = none
    ∧ respCount r (sendPermissionDecision ms r d).2 = 1
    ∧ (sendPermissionDecision ms r d).2 = [⟨sock, 0, .permissionResponse r d⟩] := by
  unfold sendPermissionDecision
  rw [h]
  refine ⟨?_, ?_, rfl⟩
  · simp [lookup_mapDelete]
  · simp [respCount, isRespWrite]

theorem sendPermissionDecision_none (ms : ManagerState) (r : String) (d : Decision)
    (h : ms.pendingPermissions.lookup r = none) :
    sendPermissionDecision ms r d = (ms, []) := by
  unfold sendPermissionDecision
  rw [h]

theorem sendAskResponse_other (ms : ManagerState) (r' : String)
    (a : List (String × String)) (r : String) (hne : r ≠ r') :
    (sendAskUserQuestionResponse ms r' a).1.pendingPermissions.lookup r =
      ms.pendingPermissions.lookup r
    ∧ respCount r (sendAskUserQuestionResponse ms r' a).2 = 0 := by
  unfold sendAskUserQuestionResponse
  split
  · exact ⟨rfl, rfl⟩
  · have hb : (r' == r) = false := beq_eq_false_iff_ne.mpr fun h => hne h.symm
    constructor
    · simp [lookup_mapDelete, hne]
    · simp [respCount, isRespWrite, hb]

theorem sendAskResponse_self_some (ms : ManagerState) (r : String)
    (a : List (String × String)) (sock : SocketId)
    (h : ms.pendingPermissions.lookup r = some sock) :
    (sendAskUserQuestionResponse ms r a).1.pendingPermissions.lookup r = none
    ∧ respCount r (sendAskUserQuestionResponse ms r a).2 = 1
    ∧ (sendAskUserQuestionResponse ms r a).2 =
        [⟨sock, 0, .permissionResponse r ⟨.allow, none, some a⟩⟩] := by
  unfold sendAskUserQuestionResponse
  rw [h]
  refine ⟨?_, ?_, rfl⟩
  · simp [lookup_mapDelete]
  · simp [respCount, isRespWrite]

theorem sendAskResponse_none (ms : ManagerState) (r : String)
    (a : List (String × String))
    (h : ms.pendingPermissions.lookup r = none) :
    sendAskUserQuestionResponse ms r a = (ms, []) := by
  unfold sendAskUserQuestionResponse
  rw [h]

/-- Effect of one manager step on the pending entry and the written
responses of a fixed request id `r`, for events that are not a fresh
`permission_request` for `r`: either the entry's binding is untouched and no
response for `r` is written, or the entry was pending and is now resolved
with exactly one response written. -/
theorem stepC2 (env : Env) (ms : ManagerState) (r : String) :
    ∀ ev : InEvent, isPermReqFor r ev = false →
    ((step env ms ev).state.pendingPermissions.lookup r =
        ms.pendingPermissions.lookup r
      ∧ respCount r (step env ms ev).writes = 0)
    ∨ ((∃ sock, ms.pendingPermissions.lookup r = some sock)
        ∧ (step env ms ev).state.pendingPermissions.lookup r = none
        ∧ respCount r (step env ms ev).writes = 1) := by
  intro ev hev
  cases ev with
  | frame sock msg =>
    cases msg with
    | sessionStart m sz => exact Or.inl ⟨rfl, rfl⟩
    | sessionEnd sid =>
      left
      simp only [step, handleSessionMessage]
      split <;> exact ⟨rfl, rfl⟩
    | titleUpdate sid title =>
      left
      simp only [step, handleSessionMessage]
      split
      · split <;> exact ⟨rfl, rfl⟩
      · exact ⟨rfl, rfl⟩
    | ptyOutput sid c =>
      left
      exact ⟨congrArg (fun m => m.lookup r)
        (ptyOutputStep_pendings env.hash ms sid c).1, rfl⟩
    | permissionRequest r' tool input sid =>
      left
      have hne : r ≠ r' := by
        simp only [isPermReqFor] at hev
        intro h
        rw [h] at hev
        simp at hev
      simp only [step, handleSessionMessage]
      split
      · exact ⟨lookup_mapSet_ne _ _ _ _ hne, rfl⟩
      · split
        · refine ⟨?_, ?_⟩
          · exact ((sendPermissionDecision_other _ r' _ r hne).1).trans
              (lookup_mapSet_ne _ _ _ _ hne)
          · exact (sendPermissionDecision_other _ r' _ r hne).2
        · refine ⟨?_, ?_⟩
          · exact ((sendPermissionDecision_other _ r' _ r hne).1).trans
              (lookup_mapSet_ne _ _ _ _ hne)
          · exact (sendPermissionDecision_other _ r' _ r hne).2
        · exact ⟨lookup_mapSet_ne _ _ _ _ hne, rfl⟩
  | socketClose sock =>
    left
    simp only [step, socketCloseStep]
    split <;> exact ⟨rfl, rfl⟩
  | adapterDecision r' d =>
    by_cases hr : r' = r
    · subst hr
      cases hp : ms.pendingPermissions.lookup r' with
      | none =>
        left
        simp only [step]
        rw [sendPermissionDecision_none ms r' d hp]
        exact ⟨hp, rfl⟩
      | some sock =>
        right
        have h3 := sendPermissionDecision_self_some ms r' d sock hp
        simp only [step]
        exact ⟨⟨sock, rfl⟩, h3.1, h3.2.1⟩
    · left
      have hne : r ≠ r' := fun h => hr h.symm
      exact ⟨(sendPermissionDecision_other ms r' d r hne).1,
        (sendPermissionDecision_other ms r' d r hne).2⟩
  | askAllow sid a =>
    simp only [step]
    unfold allowPendingAskUserQuestion
    cases hq : ms.pendingAskUserQuestions.lookup sid with
    | none => exact Or.inl ⟨rfl, rfl⟩
    | some rid =>
      dsimp only
      by_cases hr : rid = r
      · subst hr
        cases hp : ms.pendingPermissions.lookup rid with
        | none =>
          left
          rw [sendAskResponse_none ms rid a hp]
          exact ⟨hp, rfl⟩
        | some sock =>
          right
          have h3 := sendAskResponse_self_some ms rid a sock hp
          exact ⟨⟨sock, rfl⟩, h3.1, h3.2.1⟩
      · left
        have hne : r ≠ rid := fun h => hr h.symm
        exact ⟨(sendAskResponse_other ms rid a r hne).1,
          (sendAskResponse_other ms rid a r hne).2⟩
  | input sid text ok =>
    left
    simp only [step]
    unfold sendInput
    split
    · exact ⟨rfl, rfl⟩
    · split
      · exact ⟨rfl, by simp [respCount, isRespWrite]⟩
      · exact ⟨rfl, rfl⟩
  | tailRun sid buffer =>
    left
    simp only [step]
    split <;> exact ⟨rfl, rfl⟩

/-- Across any event sequence without a fresh `permission_request` for `r`,
at most one response for `r` is written, and none at all if `r` was not
pending at the start. -/
theorem runC2 (env : Env) (r : String) :
    ∀ (evs : List InEvent) (ms : ManagerState),
    (∀ ev ∈ evs, isPermReqFor r ev = false) →
    respCount r (runM env ms evs).writes ≤ 1
    ∧ (ms.pendingPermissions.lookup r = none →
        respCount r (runM env ms evs).writes = 0) := by
  intro evs
  induction evs with
  | nil =>
    intro ms _
    constructor
    · simp [runM, respCount]
    · intro _; simp [runM, respCount]
  | cons ev evs ih =>
    intro ms h
    have hev := h ev (List.mem_cons_self _ _)
    have hrest : ∀ e ∈ evs, isPermReqFor r e = false :=
      fun e he => h e (List.mem_cons_of_mem _ he)
    have hsplit : respCount r (runM env ms (ev :: evs)).writes =
        respCount r (step env ms ev).writes +
        respCount r (runM env (step env ms ev).state evs).writes := by
      show respCount r ((step env ms ev).writes ++
        (runM env (step env ms ev).state evs).writes) = _
      rw [respCount_append]
    have ihr := ih (step env ms ev).state hrest
    rcases stepC2 env ms r ev hev with ⟨hl1, hl2⟩ | ⟨⟨sock, hsome⟩, hn, hc⟩
    · constructor
      · rw [hsplit, hl2]
        simpa using ihr.1
      · intro hnone
        rw [hsplit, hl2]
        have : (step env ms ev).state.pendingPermissions.lookup r = none :=
          hl1.trans hnone
        rw [ihr.2 this]
    · have hrest0 := ihr.2 hn
      constructor
      · rw [hsplit, hc, hrest0]
      · intro hnone
        rw [hsome] at hnone
        cases hnone

/-- Claim C2: for every pending permission request id, at most one
`permission_response` frame is ever written to the originating connection:
the first decision writes the response and removes the pending entry, every
subsequent decision for the same id (through either `sendPermissionDecision`
or the ask-user response path) is ignored writing nothing, and across any
event sequence without a new `permission_request` for that id at most one
response frame for it is ever written. -/
theorem C2_decision_idempotent (env : Env) (ms : ManagerState) (r : String)
    (sock : SocketId) (d : Decision) (evs : List InEvent)
    (hp : ms.pendingPermissions.lookup r = some sock)
    (hevs : ∀ ev ∈ evs, isPermReqFor r ev = false) :
    (sendPermissionDecision ms r d).2 = [⟨sock, 0, .permissionResponse r d⟩]
    ∧ (sendPermissionDecision ms r d).1.pendingPermissions.lookup r = none
    ∧ (∀ (ms' : ManagerState) (d' : Decision) (a : List (String × String)),
        ms'.pendingPermissions.lookup r = none →
        sendPermissionDecision ms' r d' = (ms', []) ∧
        sendAskUserQuestionResponse ms' r a = (ms', []))
    ∧ respCount r (runM env ms evs).writes ≤ 1 := by
  refine ⟨(sendPermissionDecision_self_some ms r d sock hp).2.2,
    (sendPermissionDecision_self_some ms r d sock hp).1, ?_, ?_⟩
  · intro ms' d' a hnone
    exact ⟨sendPermissionDecision_none ms' r d' hnone,
      sendAskResponse_none ms' r a hnone⟩
  · exact (runC2 env r evs ms hevs).1

/-- Witness for C2: concrete pending entry, one decision, then a second
decision and a pty frame. -/
theorem C2_decision_idempotent_witness :
    (sendPermissionDecision ⟨[], [("r1", 1)], []⟩ "r1" ⟨.deny, none, none⟩).2 =
      [⟨1, 0, .permissionResponse "r1" ⟨.deny, none, none⟩⟩]
    ∧ (sendPermissionDecision ⟨[], [("r1", 1)], []⟩ "r1"
        ⟨.deny, none, none⟩).1.pendingPermissions.lookup "r1" = none
    ∧ (∀ (ms' : ManagerState) (d' : Decision) (a : List (String × String)),
        ms'.pendingPermissions.lookup "r1" = none →
        sendPermissionDecision ms' "r1" d' = (ms', []) ∧
        sendAskUserQuestionResponse ms' "r1" a = (ms', []))
    ∧ respCount "r1" (runM env0 ⟨[], [("r1", 1)], []⟩
        [.adapterDecision "r1" ⟨.allow, none, none⟩,
         .adapterDecision "r1" ⟨.deny, none, none⟩,
         .askAllow "S" [("0", "x")]]).writes ≤ 1 :=
  C2_decision_idempotent env0 ⟨[], [("r1", 1)], []⟩ "r1" 1 ⟨.deny, none, none⟩
    [.adapterDecision "r1" ⟨.allow, none, none⟩,
     .adapterDecision "r1" ⟨.deny, none, none⟩,
     .askAllow "S" [("0", "x")]] (by rfl) (by decide)

/-! ## Claim C9: error denial and exactly-once session-end -/

theorem endCount_append (sid : String) (a b : List Emission) :
    endCount sid (a ++ b) = endCount sid a + endCount sid b := by
  simp [endCount, List.filter_append]

theorem endCount_of_noEnd (sid : String) (es : List Emission) (h : NoEnd es) :
    endCount sid es = 0 := by
  induction es with
  | nil => rfl
  | cons e t ih =>
    have he : e ≠ Emission.sessionEnd sid := h e (List.mem_cons_self _ _) sid
    have hb : (e == Emission.sessionEnd sid) = false := beq_eq_false_iff_ne.mpr he
    have ht : NoEnd t := fun e' he' => h e' (List.mem_cons_of_mem _ he')
    simp [endCount, List.filter_cons, hb] at ih ⊢
    exact ih ht

theorem endCount_end_self (sid : String) :
    endCount sid [Emission.sessionEnd sid] = 1 := by
  simp [endCount]

theorem endCount_end_other (sid sid' : String) (h : sid' ≠ sid) :
    endCount sid [Emission.sessionEnd sid'] = 0 := by
  have hb : (Emission.sessionEnd sid' == Emission.sessionEnd sid) = false :=
    beq_eq_false_iff_ne.mpr (by simp [h])
  simp [endCount, List.filter_cons, hb]

theorem lookup_none_key {β : Type} {m : List (String × β)} {k : String}
    (h : m.lookup k = none) : ∀ p ∈ m, p.1 ≠ k := by
  induction m with
  | nil => intro p hp; cases hp
  | cons a t ih =>
    obtain ⟨a1, a2⟩ := a
    rw [lookup_cons_eqn] at h
    by_cases he : k = a1
    · simp [he] at h
    · simp only [he, if_false] at h
      intro p hp
      rcases List.mem_cons.mp hp with hh | hm
      · subst hh; simp; exact fun x => he x.symm
      · exact ih h p hm

theorem sendPermissionDecision_sessions (ms : ManagerState) (r : String)
    (d : Decision) : (sendPermissionDecision ms r d).1.sessions = ms.sessions := by
  unfold sendPermissionDecision
  split <;> rfl

theorem sendAskResponse_sessions (ms : ManagerState) (r : String)
    (a : List (String × String)) :
    (sendAskUserQuestionResponse ms r a).1.sessions = ms.sessions := by
  unfold sendAskUserQuestionResponse
  split <;> rfl

theorem allowPending_sessions (ms : ManagerState) (sid : String)
    (a : List (String × String)) :
    (allowPendingAskUserQuestion ms sid a).1.sessions = ms.sessions := by
  unfold allowPendingAskUserQuestion
  split
  · rfl
  · dsimp only
    exact sendAskResponse_sessions _ _ _

theorem DeadSid_congr {sid : String} {sock : SocketId} {ms ms' : ManagerState}
    (h : ms'.sessions = ms.sessions) (hd : DeadSid sid sock ms) :
    DeadSid sid sock ms' := by
  obtain ⟨h1, h2⟩ := hd
  constructor
  · rw [h]; exact h1
  · rw [h]; exact h2

theorem LiveSid_congr {sid : String} {sock : SocketId} {ms ms' : ManagerState}
    (h : ms'.sessions = ms.sessions) (hl : LiveSid sid sock ms) :
    LiveSid sid sock ms' := by
  obtain ⟨h1, h2⟩ := hl
  constructor
  · rw [h]; exact h1
  · rw [h]; exact h2

theorem runM_append (env : Env) :
    ∀ (a b : List InEvent) (ms : ManagerState),
    (runM env ms (a ++ b)).state = (runM env (runM env ms a).state b).state
    ∧ (runM env ms (a ++ b)).emissions =
        (runM env ms a).emissions ++ (runM env (runM env ms a).state b).emissions
    ∧ (runM env ms (a ++ b)).writes =
        (runM env ms a).writes ++ (runM env (runM env ms a).state b).writes := by
  intro a
  induction a with
  | nil => intro b ms; exact ⟨rfl, rfl, rfl⟩
  | cons ev a ih =>
    intro b ms
    have h := ih b (step env ms ev).state
    refine ⟨h.1, ?_, ?_⟩
    · show (step env ms ev).emissions ++ (runM env (step env ms ev).state (a ++ b)).emissions = _
      rw [h.2.1, ← List.append_assoc]
      rfl
    · show (step env ms ev).writes ++ (runM env (step env ms ev).state (a ++ b)).writes = _
      rw [h.2.2, ← List.append_assoc]
      rfl

theorem nodup_mapSet {β : Type} (m : List (String × β)) (k : String) (v : β)
    (h : (m.map Prod.fst).Nodup) : ((mapSet m k v).map Prod.fst).Nodup := by
  unfold mapSet
  split
  · have heq : (m.map (fun p => if p.1 = k then (k, v) else p)).map Prod.fst =
        m.map Prod.fst := by
      rw [List.map_map]
      apply List.map_congr_left
      intro p _
      by_cases hp : p.1 = k
      · simp [hp]
      · simp [hp]
    rw [heq]
    exact h
  · have hn : m.lookup k = none := by
      rename_i hcond
      cases hx : m.lookup k
      · rfl
      · rw [hx] at hcond; simp at hcond
    have hk : k ∉ m.map Prod.fst := by
      intro hmem
      obtain ⟨p, hp, hfst⟩ := List.mem_map.mp hmem
      exact lookup_none_key hn p hp hfst
    simp [List.nodup_append, h, hk]

theorem nodup_mapDelete {β : Type} (m : List (String × β)) (k : String)
    (h : (m.map Prod.fst).Nodup) : ((mapDelete m k).map Prod.fst).Nodup :=
  h.sublist ((List.filter_sublist _).map _)

theorem lookup_of_mem_nodup {β : Type} {m : List (String × β)}
    (hnd : (m.map Prod.fst).Nodup) {p : String × β} (hp : p ∈ m) :
    m.lookup p.1 = some p.2 := by
  induction m with
  | nil => cases hp
  | cons a t ih =>
    obtain ⟨a1, a2⟩ := a
    rw [List.map_cons, List.nodup_cons] at hnd
    rcases List.mem_cons.mp hp with hh | hm
    · subst hh
      rw [lookup_cons_eqn]
      simp
    · rw [lookup_cons_eqn]
      have hne : p.1 ≠ a1 := by
        intro he
        exact hnd.1 (he ▸ List.mem_map.mpr ⟨p, hm, rfl⟩)
      simp only [hne, if_false]
      exact ih hnd.2 hm

/-- Every manager step preserves uniqueness of the session keys. -/
theorem step_keysNodup (env : Env) (ms : ManagerState) (ev : InEvent)
    (h : KeysNodup ms) : KeysNodup (step env ms ev).state := by
  unfold KeysNodup at h ⊢
  cases ev with
  | frame sock msg =>
    cases msg with
    | sessionStart m sz => exact nodup_mapSet _ _ _ h
    | sessionEnd sid =>
      simp only [step, handleSessionMessage]
      cases ms.sessions.lookup sid
      · exact h
      · exact nodup_mapDelete _ _ h
    | titleUpdate sid title =>
      simp only [step, handleSessionMessage]
      cases ms.sessions.lookup sid
      · exact h
      · dsimp only
        split <;> exact h
    | ptyOutput sid c =>
      simp only [step, handleSessionMessage]
      unfold ptyOutputStep
      cases ms.sessions.lookup sid
      · exact h
      · cases c
        · exact h
        · dsimp only
          split
          · exact h
          · split
            · exact h
            · split
              · exact h
              · exact nodup_mapSet _ _ _ h
    | permissionRequest r tool input sid =>
      simp only [step, handleSessionMessage]
      split
      · exact h
      · split
        · rw [sendPermissionDecision_sessions]; exact h
        · rw [sendPermissionDecision_sessions]; exact h
        · exact h
  | socketClose sock =>
    simp only [step, socketCloseStep]
    cases ms.sessions.find? (fun p => p.2.socket == sock)
    · exact h
    · exact nodup_mapDelete _ _ h
  | adapterDecision r d =>
    show ((sendPermissionDecision ms r d).1.sessions.map Prod.fst).Nodup
    rw [sendPermissionDecision_sessions]
    exact h
  | askAllow sid a =>
    show ((allowPendingAskUserQuestion ms sid a).1.sessions.map Prod.fst).Nodup
    rw [allowPending_sessions]
    exact h
  | input sid text ok =>
    simp only [step]
    unfold sendInput
    cases ms.sessions.lookup sid
    · exact h
    · dsimp only
      split
      · exact h
      · exact nodup_mapDelete _ _ h
  | tailRun sid buffer =>
    simp only [step]
    cases ms.sessions.lookup sid
    · exact h
    · exact nodup_mapSet _ _ _ h

/-- In a state where session `sid` is gone and nothing occupies its socket,
any event that is not a `session_start` for `sid` or on its socket keeps it
that way and emits no session-end for `sid`. -/
theorem stepC9_dead (env : Env) (sid : String) (sock : SocketId)
    (ms : ManagerState) (ev : InEvent)
    (hs : isStartOfSid sid ev = false) (hk : isStartOnSock sock ev = false)
    (hdead : DeadSid sid sock ms) :
    DeadSid sid sock (step env ms ev).state ∧
    endCount sid (step env ms ev).emissions = 0 := by
  obtain ⟨hnone, hsock⟩ := hdead
  cases ev with
  | frame sock' msg =>
    cases msg with
    | sessionStart m sz =>
      have hid : m.id ≠ sid := by simpa [isStartOfSid] using hs
      have hsk : sock' ≠ sock := by simpa [isStartOnSock] using hk
      simp only [step, handleSessionMessage, sessionStartStep]
      refine ⟨⟨?_, ?_⟩, ?_⟩
      · rw [lookup_mapSet_ne _ _ _ _ (fun h => hid h.symm)]
        exact hnone
      · intro p hp
        rcases mem_mapSet hp with he | hm
        · rw [he]; exact hsk
        · exact hsock p hm
      · exact endCount_of_noEnd _ _ (noEnd_single (by intro x; simp))
    | sessionEnd sid' =>
      simp only [step, handleSessionMessage]
      cases hlook : ms.sessions.lookup sid' with
      | none => exact ⟨⟨hnone, hsock⟩, rfl⟩
      | some s =>
        have hne : sid' ≠ sid := by
          intro h; subst h; rw [hnone] at hlook; cases hlook
        dsimp only
        refine ⟨⟨?_, ?_⟩, ?_⟩
        · rw [lookup_mapDelete]
          simp [hnone]
        · intro p hp
          exact hsock p (mem_mapDelete hp).1
        · exact endCount_end_other sid sid' hne
    | titleUpdate sid' title =>
      simp only [step, handleSessionMessage]
      cases hlook : ms.sessions.lookup sid' with
      | none => exact ⟨⟨hnone, hsock⟩, rfl⟩
      | some s =>
        dsimp only
        split
        · exact ⟨⟨hnone, hsock⟩,
            endCount_of_noEnd _ _ (noEnd_single (by intro x; simp))⟩
        · exact ⟨⟨hnone, hsock⟩, rfl⟩
    | ptyOutput sid' c =>
      simp only [step, handleSessionMessage]
      unfold ptyOutputStep
      cases hlook : ms.sessions.lookup sid' with
      | none => exact ⟨⟨hnone, hsock⟩, rfl⟩
      | some session =>
        cases c with
        | none => exact ⟨⟨hnone, hsock⟩, rfl⟩
        | some raw =>
          dsimp only
          split
          · exact ⟨⟨hnone, hsock⟩, rfl⟩
          · split
            · exact ⟨⟨hnone, hsock⟩, rfl⟩
            · split
              · exact ⟨⟨hnone, hsock⟩, rfl⟩
              · have hne : sid' ≠ sid := by
                  intro h; subst h; rw [hnone] at hlook; cases hlook
                refine ⟨⟨?_, ?_⟩, ?_⟩
                · rw [lookup_mapSet_ne _ _ _ _ (fun h => hne h.symm)]
                  exact hnone
                · intro p hp
                  rcases mem_mapSet hp with he | hm
                  · have hsess := hsock _ (mem_of_lookup_eq_some hlook)
                    rw [he]
                    simpa [addSeenMessage_socket] using hsess
                  · exact hsock p hm
                · exact endCount_of_noEnd _ _ (noEnd_single (by intro x; simp))
    | permissionRequest r tool input sid' =>
      simp only [step, handleSessionMessage]
      split
      · exact ⟨⟨hnone, hsock⟩, rfl⟩
      · split
        · exact ⟨DeadSid_congr (sendPermissionDecision_sessions _ _ _)
            ⟨hnone, hsock⟩, rfl⟩
        · exact ⟨DeadSid_congr (sendPermissionDecision_sessions _ _ _)
            ⟨hnone, hsock⟩, rfl⟩
        · exact ⟨⟨hnone, hsock⟩, rfl⟩
  | socketClose sock' =>
    simp only [step, socketCloseStep]
    cases hfind : ms.sessions.find? (fun p => p.2.socket == sock') with
    | none => exact ⟨⟨hnone, hsock⟩, rfl⟩
    | some p =>
      have hpm := List.mem_of_find?_eq_some hfind
      have hkey : p.1 ≠ sid := lookup_none_key hnone p hpm
      dsimp only
      refine ⟨⟨?_, ?_⟩, ?_⟩
      · rw [lookup_mapDelete]
        simp [hnone]
      · intro q hq
        exact hsock q (mem_mapDelete hq).1
      · exact endCount_end_other sid p.1 hkey
  | adapterDecision r d =>
    exact ⟨DeadSid_congr (sendPermissionDecision_sessions _ _ _)
      ⟨hnone, hsock⟩, rfl⟩
  | askAllow sid' a =>
    exact ⟨DeadSid_congr (allowPending_sessions _ _ _) ⟨hnone, hsock⟩, rfl⟩
  | input sid' text ok =>
    simp only [step]
    unfold sendInput
    cases hlook : ms.sessions.lookup sid' with
    | none => exact ⟨⟨hnone, hsock⟩, rfl⟩
    | some s =>
      have hne : sid' ≠ sid := by
        intro h; subst h; rw [hnone] at hlook; cases hlook
      dsimp only
      split
      · exact ⟨⟨hnone, hsock⟩, rfl⟩
      · refine ⟨⟨?_, ?_⟩, ?_⟩
        · rw [lookup_mapDelete]
          simp [hnone]
        · intro p hp
          exact hsock p (mem_mapDelete hp).1
        · exact endCount_end_other sid sid' hne
  | tailRun sid' buffer =>
    simp only [step]
    cases hlook : ms.sessions.lookup sid' with
    | none => exact ⟨⟨hnone, hsock⟩, rfl⟩
    | some s =>
      have hne : sid' ≠ sid := by
        intro h; subst h; rw [hnone] at hlook; cases hlook
      dsimp only
      refine ⟨⟨?_, ?_⟩, ?_⟩
      · rw [lookup_mapSet_ne _ _ _ _ (fun h => hne h.symm)]
        exact hnone
      · intro p hp
        rcases mem_mapSet hp with he | hm
        · have hsess := hsock _ (mem_of_lookup_eq_some hlook)
          rw [he]
          have := (processJsonl_stable_socket env.hash env.parse env.now s buffer).1
          simp only at hsess ⊢
          rw [this]
          exact hsess
        · exact hsock p hm
      · exact endCount_of_noEnd _ _
          (processJsonl_noEnd env.hash env.parse env.now s buffer)

theorem isTriggerEv_start (sid : String) (sock sock' : SocketId)
    (m : SessionStartMsg) (sz : Nat) :
    isTriggerEv sid sock (.frame sock' (.sessionStart m sz)) = false := rfl

theorem isTriggerEv_end (sid : String) (sock sock' : SocketId) (sid' : String) :
    isTriggerEv sid sock (.frame sock' (.sessionEnd sid')) = (sid' == sid) := rfl

theorem isTriggerEv_title (sid : String) (sock sock' : SocketId) (sid' : String)
    (t : Option String) :
    isTriggerEv sid sock (.frame sock' (.titleUpdate sid' t)) = false := rfl

theorem isTriggerEv_pty (sid : String) (sock sock' : SocketId) (sid' : String)
    (c : Option String) :
    isTriggerEv sid sock (.frame sock' (.ptyOutput sid' c)) = false := rfl

theorem isTriggerEv_perm (sid : String) (sock sock' : SocketId)
    (r tool input sid' : String) :
    isTriggerEv sid sock (.frame sock' (.permissionRequest r tool input sid')) = false := rfl

theorem isTriggerEv_close (sid : String) (sock sock' : SocketId) :
    isTriggerEv sid sock (.socketClose sock') = (sock' == sock) := rfl

theorem isTriggerEv_decision (sid : String) (sock : SocketId) (r : String)
    (d : Decision) :
    isTriggerEv sid sock (.adapterDecision r d) = false := rfl

theorem isTriggerEv_ask (sid : String) (sock : SocketId) (sid' : String)
    (a : List (String × String)) :
    isTriggerEv sid sock (.askAllow sid' a) = false := rfl

theorem isTriggerEv_input (sid : String) (sock : SocketId) (sid' text : String)
    (ok : Bool) :
    isTriggerEv sid sock (.input sid' text ok) = (sid' == sid && !ok) := rfl

theorem isTriggerEv_tail (sid : String) (sock : SocketId) (sid' : String)
    (b : List Char) :
    isTriggerEv sid sock (.tailRun sid' b) = false := rfl

/-- In a state where session `sid` is live on socket `sock` (keys unique,
socket unshared), any event that is not a `session_start` for `sid` or on
socket `sock` either leaves the session live without emitting its
session-end (non-trigger events), or — when the event is one of the three
disconnect paths — tears it down emitting exactly one session-end. -/
theorem stepC9_live (env : Env) (sid : String) (sock : SocketId)
    (ms : ManagerState) (ev : InEvent)
    (hs : isStartOfSid sid ev = false) (hk : isStartOnSock sock ev = false)
    (hnd : KeysNodup ms) (hlive : LiveSid sid sock ms) :
    (isTriggerEv sid sock ev = false →
      LiveSid sid sock (step env ms ev).state ∧
      endCount sid (step env ms ev).emissions = 0)
    ∧ (isTriggerEv sid sock ev = true →
      DeadSid sid sock (step env ms ev).state ∧
      endCount sid (step env ms ev).emissions = 1) := by
  obtain ⟨⟨s, hlook, hsocks⟩, huniq⟩ := hlive
  cases ev with
  | frame sock' msg =>
    cases msg with
    | sessionStart m sz =>
      have hid : m.id ≠ sid := by simpa [isStartOfSid] using hs
      have hsk : sock' ≠ sock := by simpa [isStartOnSock] using hk
      constructor
      · intro _
        simp only [step, handleSessionMessage, sessionStartStep]
        refine ⟨⟨⟨s, ?_, hsocks⟩, ?_⟩, ?_⟩
        · rw [lookup_mapSet_ne _ _ _ _ (fun h => hid h.symm)]
          exact hlook
        · intro p hp hps
          rcases mem_mapSet hp with he | hm
          · rw [he] at hps
            exact absurd hps hsk
          · exact huniq p hm hps
        · exact endCount_of_noEnd _ _ (noEnd_single (by intro x; simp))
      · intro htr
        rw [isTriggerEv_start] at htr
        exact Bool.noConfusion htr
    | sessionEnd sid' =>
      by_cases hsid : sid' = sid
      · subst hsid
        constructor
        · intro htr
          rw [isTriggerEv_end] at htr
          simp at htr
        · intro _
          simp only [step, handleSessionMessage]
          rw [hlook]
          dsimp only
          refine ⟨⟨?_, ?_⟩, ?_⟩
          · rw [lookup_mapDelete]
            simp
          · intro p hp hps
            have h2 := mem_mapDelete hp
            exact h2.2 (huniq p h2.1 hps)
          · exact endCount_end_self sid'
      · constructor
        · intro _
          simp only [step, handleSessionMessage]
          cases hlook' : ms.sessions.lookup sid' with
          | none => exact ⟨⟨⟨s, hlook, hsocks⟩, huniq⟩, rfl⟩
          | some s' =>
            dsimp only
            refine ⟨⟨⟨s, ?_, hsocks⟩, ?_⟩, ?_⟩
            · rw [lookup_mapDelete]
              rw [if_neg (fun h => hsid h.symm)]
              exact hlook
            · intro p hp hps
              exact huniq p (mem_mapDelete hp).1 hps
            · exact endCount_end_other sid sid' hsid
        · intro htr
          rw [isTriggerEv_end] at htr
          exact absurd (by simpa using htr) hsid
    | titleUpdate sid' title =>
      constructor
      · intro _
        simp only [step, handleSessionMessage]
        cases ms.sessions.lookup sid' with
        | none => exact ⟨⟨⟨s, hlook, hsocks⟩, huniq⟩, rfl⟩
        | some s' =>
          dsimp only
          split
          · exact ⟨⟨⟨s, hlook, hsocks⟩, huniq⟩,
              endCount_of_noEnd _ _ (noEnd_single (by intro x; simp))⟩
          · exact ⟨⟨⟨s, hlook, hsocks⟩, huniq⟩, rfl⟩
      · intro htr
        rw [isTriggerEv_title] at htr
        exact Bool.noConfusion htr
    | ptyOutput sid' c =>
      constructor
      · intro _
        simp only [step, handleSessionMessage]
        unfold ptyOutputStep
        cases hlook' : ms.sessions.lookup sid' with
        | none => exact ⟨⟨⟨s, hlook, hsocks⟩, huniq⟩, rfl⟩
        | some session =>
          cases c with
          | none => exact ⟨⟨⟨s, hlook, hsocks⟩, huniq⟩, rfl⟩
          | some raw =>
            dsimp only
            split
            · exact ⟨⟨⟨s, hlook, hsocks⟩, huniq⟩, rfl⟩
            · split
              · exact ⟨⟨⟨s, hlook, hsocks⟩, huniq⟩, rfl⟩
              · split
                · exact ⟨⟨⟨s, hlook, hsocks⟩, huniq⟩, rfl⟩
                · have huniq' : ∀ p ∈ mapSet ms.sessions sid'
                      (addSeenMessage session
                        (ptyKey session.id (env.hash (jsTake (jsTrim raw) 100)))),
                      p.2.socket = sock → p.1 = sid := by
                    intro p hp hps
                    rcases mem_mapSet hp with he | hm
                    · rw [he] at hps
                      simp only [addSeenMessage_socket] at hps
                      rw [he]
                      show sid' = sid
                      exact huniq (sid', session) (mem_of_lookup_eq_some hlook') hps
                    · exact huniq p hm hps
                  by_cases hss : sid' = sid
                  · subst hss
                    have hsess : session = s := by
                      rw [hlook] at hlook'
                      exact (Option.some_inj.mp hlook').symm
                    refine ⟨⟨⟨_, lookup_mapSet_self _ _ _, ?_⟩, huniq'⟩, ?_⟩
                    · rw [addSeenMessage_socket, hsess]
                      exact hsocks
                    · exact endCount_of_noEnd _ _ (noEnd_single (by intro x; simp))
                  · refine ⟨⟨⟨s, ?_, hsocks⟩, huniq'⟩, ?_⟩
                    · rw [lookup_mapSet_ne _ _ _ _ (fun h => hss h.symm)]
                      exact hlook
                    · exact endCount_of_noEnd _ _ (noEnd_single (by intro x; simp))
      · intro htr
        rw [isTriggerEv_pty] at htr
        exact Bool.noConfusion htr
    | permissionRequest r tool input sid' =>
      constructor
      · intro _
        simp only [step, handleSessionMessage]
        split
        · exact ⟨⟨⟨s, hlook, hsocks⟩, huniq⟩, rfl⟩
        · split
          · exact ⟨LiveSid_congr (sendPermissionDecision_sessions _ _ _)
              ⟨⟨s, hlook, hsocks⟩, huniq⟩, rfl⟩
          · exact ⟨LiveSid_congr (sendPermissionDecision_sessions _ _ _)
              ⟨⟨s, hlook, hsocks⟩, huniq⟩, rfl⟩
          · exact ⟨⟨⟨s, hlook, hsocks⟩, huniq⟩, rfl⟩
      · intro htr
        rw [isTriggerEv_perm] at htr
        exact Bool.noConfusion htr
  | socketClose sock' =>
    by_cases hsk : sock' = sock
    · subst hsk
      constructor
      · intro htr
        rw [isTriggerEv_close] at htr
        simp at htr
      · intro _
        simp only [step, socketCloseStep]
        cases hfind : ms.sessions.find? (fun p => p.2.socket == sock') with
        | none =>
          exfalso
          have hmem := mem_of_lookup_eq_some hlook
          have := List.find?_eq_none.mp hfind _ hmem
          simp [hsocks] at this
        | some p =>
          have hpm := List.mem_of_find?_eq_some hfind
          have hpred := List.find?_some hfind
          have hps : p.2.socket = sock' := by simpa using hpred
          have hkey : p.1 = sid := huniq p hpm hps
          dsimp only
          rw [hkey]
          refine ⟨⟨?_, ?_⟩, ?_⟩
          · rw [lookup_mapDelete]
            simp
          · intro q hq hqs
            have h2 := mem_mapDelete hq
            exact h2.2 (huniq q h2.1 hqs)
          · exact endCount_end_self sid
    · constructor
      · intro _
        simp only [step, socketCloseStep]
        cases hfind : ms.sessions.find? (fun p => p.2.socket == sock') with
        | none => exact ⟨⟨⟨s, hlook, hsocks⟩, huniq⟩, rfl⟩
        | some p =>
          have hpm := List.mem_of_find?_eq_some hfind
          have hpred := List.find?_some hfind
          have hps : p.2.socket = sock' := by simpa using hpred
          have hkey : p.1 ≠ sid := by
            intro he
            have hl2 : ms.sessions.lookup p.1 = some p.2 := lookup_of_mem_nodup hnd hpm
            rw [he, hlook] at hl2
            have hp2 : p.2 = s := (Option.some_inj.mp hl2).symm
            rw [hp2] at hps
            rw [hsocks] at hps
            exact hsk hps.symm
          dsimp only
          refine ⟨⟨⟨s, ?_, hsocks⟩, ?_⟩, ?_⟩
          · rw [lookup_mapDelete]
            rw [if_neg (fun h => hkey h.symm)]
            exact hlook
          · intro q hq hqs
            exact huniq q (mem_mapDelete hq).1 hqs
          · exact endCount_end_other sid p.1 hkey
      · intro htr
        rw [isTriggerEv_close] at htr
        exact absurd (by simpa using htr) hsk
  | adapterDecision r d =>
    constructor
    · intro _
      exact ⟨LiveSid_congr (sendPermissionDecision_sessions _ _ _)
        ⟨⟨s, hlook, hsocks⟩, huniq⟩, rfl⟩
    · intro htr
      rw [isTriggerEv_decision] at htr
      exact Bool.noConfusion htr
  | askAllow sid' a =>
    constructor
    · intro _
      exact ⟨LiveSid_congr (allowPending_sessions _ _ _)
        ⟨⟨s, hlook, hsocks⟩, huniq⟩, rfl⟩
    · intro htr
      rw [isTriggerEv_ask] at htr
      exact Bool.noConfusion htr
  | input sid' text ok =>
    by_cases hss : sid' = sid
    · subst hss
      cases ok with
      | true =>
        constructor
        · intro _
          simp only [step]
          unfold sendInput
          rw [hlook]
          exact ⟨⟨⟨s, hlook, hsocks⟩, huniq⟩, rfl⟩
        · intro htr
          rw [isTriggerEv_input] at htr
          simp at htr
      | false =>
        constructor
        · intro htr
          rw [isTriggerEv_input] at htr
          simp at htr
        · intro _
          simp only [step]
          unfold sendInput
          rw [hlook]
          refine ⟨⟨?_, ?_⟩, ?_⟩
          · show List.lookup sid' (mapDelete ms.sessions sid') = none
            rw [lookup_mapDelete]
            simp
          · show ∀ p ∈ mapDelete ms.sessions sid', p.2.socket ≠ sock
            intro p hp hps
            have h2 := mem_mapDelete hp
            exact h2.2 (huniq p h2.1 hps)
          · show endCount sid' [Emission.sessionEnd sid'] = 1
            exact endCount_end_self sid'
    · constructor
      · intro _
        simp only [step]
        unfold sendInput
        cases hlook' : ms.sessions.lookup sid' with
        | none => exact ⟨⟨⟨s, hlook, hsocks⟩, huniq⟩, rfl⟩
        | some s' =>
          cases ok with
          | true => exact ⟨⟨⟨s, hlook, hsocks⟩, huniq⟩, rfl⟩
          | false =>
            refine ⟨⟨⟨s, ?_, hsocks⟩, ?_⟩, ?_⟩
            · show List.lookup sid (mapDelete ms.sessions sid') = some s
              rw [lookup_mapDelete]
              rw [if_neg (fun h => hss h.symm)]
              exact hlook
            · show ∀ p ∈ mapDelete ms.sessions sid', p.2.socket = sock → p.1 = sid
              intro p hp hps
              exact huniq p (mem_mapDelete hp).1 hps
            · show endCount sid [Emission.sessionEnd sid'] = 0
              exact endCount_end_other sid sid' hss
      · intro htr
        rw [isTriggerEv_input] at htr
        have hb : (sid' == sid) = false := beq_eq_false_iff_ne.mpr hss
        rw [hb] at htr
        simp at htr
  | tailRun sid' buffer =>
    constructor
    · intro _
      simp only [step]
      cases hlook' : ms.sessions.lookup sid' with
      | none => exact ⟨⟨⟨s, hlook, hsocks⟩, huniq⟩, rfl⟩
      | some s' =>
        dsimp only
        have huniq' : ∀ p ∈ mapSet ms.sessions sid'
            (processJsonl env.hash env.parse env.now s' buffer).1,
            p.2.socket = sock → p.1 = sid := by
          intro p hp hps
          rcases mem_mapSet hp with he | hm
          · rw [he] at hps
            rw [(processJsonl_stable_socket env.hash env.parse env.now s' buffer).1] at hps
            rw [he]
            show sid' = sid
            exact huniq (sid', s') (mem_of_lookup_eq_some hlook') hps
          · exact huniq p hm hps
        by_cases hss : sid' = sid
        · subst hss
          have hsess : s' = s := by
            rw [hlook] at hlook'
            exact (Option.some_inj.mp hlook').symm
          refine ⟨⟨⟨_, lookup_mapSet_self _ _ _, ?_⟩, huniq'⟩, ?_⟩
          · rw [(processJsonl_stable_socket env.hash env.parse env.now s' buffer).1,
              hsess]
            exact hsocks
          · exact endCount_of_noEnd _ _
              (processJsonl_noEnd env.hash env.parse env.now s' buffer)
        · refine ⟨⟨⟨s, ?_, hsocks⟩, huniq'⟩, ?_⟩
          · rw [lookup_mapSet_ne _ _ _ _ (fun h => hss h.symm)]
            exact hlook
          · exact endCount_of_noEnd _ _
              (processJsonl_noEnd env.hash env.parse env.now s' buffer)
    · intro htr
      rw [isTriggerEv_tail] at htr
      exact Bool.noConfusion htr

theorem runM_keysNodup (env : Env) :
    ∀ (tr : List InEvent) (ms : ManagerState),
    KeysNodup ms → KeysNodup (runM env ms tr).state := by
  intro tr
  induction tr with
  | nil => intro ms h; exact h
  | cons ev tr ih => intro ms h; exact ih _ (step_keysNodup env ms ev h)

theorem runC9_dead (env : Env) (sid : String) (sock : SocketId) :
    ∀ (tr : List InEvent) (ms : ManagerState),
    (∀ ev ∈ tr, isStartOfSid sid ev = false) →
    (∀ ev ∈ tr, isStartOnSock sock ev = false) →
    DeadSid sid sock ms →
    DeadSid sid sock (runM env ms tr).state ∧
    endCount sid (runM env ms tr).emissions = 0 := by
  intro tr
  induction tr with
  | nil => intro ms _ _ hd; exact ⟨hd, rfl⟩
  | cons ev tr ih =>
    intro ms hs hk hd
    have hmem := List.mem_cons_self ev tr
    have hstep := stepC9_dead env sid sock ms ev (hs ev hmem) (hk ev hmem) hd
    have hrest := ih (step env ms ev).state
      (fun e he => hs e (List.mem_cons_of_mem _ he))
      (fun e he => hk e (List.mem_cons_of_mem _ he)) hstep.1
    refine ⟨hrest.1, ?_⟩
    show endCount sid
      ((step env ms ev).emissions ++
        (runM env (step env ms ev).state tr).emissions) = 0
    rw [endCount_append, hstep.2, hrest.2]

theorem runC9_live (env : Env) (sid : String) (sock : SocketId) :
    ∀ (tr : List InEvent) (ms : ManagerState),
    (∀ ev ∈ tr, isStartOfSid sid ev = false) →
    (∀ ev ∈ tr, isStartOnSock sock ev = false) →
    KeysNodup ms → LiveSid sid sock ms →
    endCount sid (runM env ms tr).emissions =
      (if tr.any (isTriggerEv sid sock) then 1 else 0) := by
  intro tr
  induction tr with
  | nil => intro ms _ _ _ _; rfl
  | cons ev tr ih =>
    intro ms hs hk hnd hlive
    have hmem := List.mem_cons_self ev tr
    have hstep := stepC9_live env sid sock ms ev (hs ev hmem) (hk ev hmem) hnd hlive
    have hshow : (runM env ms (ev :: tr)).emissions =
        (step env ms ev).emissions ++
          (runM env (step env ms ev).state tr).emissions := rfl
    rw [hshow, endCount_append]
    cases htr : isTriggerEv sid sock ev with
    | false =>
      obtain ⟨hlive', h0⟩ := hstep.1 htr
      rw [h0, ih (step env ms ev).state
        (fun e he => hs e (List.mem_cons_of_mem _ he))
        (fun e he => hk e (List.mem_cons_of_mem _ he))
        (step_keysNodup env ms ev hnd) hlive']
      simp [List.any_cons, htr]
    | true =>
      obtain ⟨hdead', h1⟩ := hstep.2 htr
      have hrest := runC9_dead env sid sock tr (step env ms ev).state
        (fun e he => hs e (List.mem_cons_of_mem _ he))
        (fun e he => hk e (List.mem_cons_of_mem _ he)) hdead'
      rw [h1, hrest.2]
      simp [List.any_cons, htr]

theorem stepC9_start (env : Env) (sid : String) (sock : SocketId)
    (ms : ManagerState) (m : SessionStartMsg) (sz : Nat)
    (hmid : m.id = sid) (hdead : DeadSid sid sock ms) :
    LiveSid sid sock (step env ms (.frame sock (.sessionStart m sz))).state ∧
    endCount sid (step env ms (.frame sock (.sessionStart m sz))).emissions = 0 := by
  subst hmid
  obtain ⟨hnone, hsock⟩ := hdead
  simp only [step, handleSessionMessage, sessionStartStep]
  refine ⟨⟨⟨_, lookup_mapSet_self _ _ _, rfl⟩, ?_⟩, ?_⟩
  · intro p hp hps
    rcases mem_mapSet hp with he | hm
    · rw [he]
    · exact absurd hps (hsock p hm)
  · exact endCount_of_noEnd _ _ (noEnd_single (by intro x; simp))

/-- C9: (a) when the adapter's permission handler throws on a (non-ask)
permission_request, the daemon immediately writes a permission_response for
that request whose decision is deny with message "Error processing request";
(b) for an accepted session_start of a fresh session id on a fresh socket,
a session-end for that id is emitted exactly once across the whole run if
any disconnect path (explicit session_end frame, socket close, or failing
input write) occurs afterwards, and never otherwise — in particular never
twice, however many disconnect paths fire. -/
theorem C9_throw_deny_and_end_once (env : Env) (ms : ManagerState)
    (sock : SocketId) (requestId toolName toolInput sessionId : String)
    (sid : String) (ms0 : ManagerState) (tr1 tr2 : List InEvent)
    (m : SessionStartMsg) (sz : Nat)
    (htool : toolName ≠ "AskUserQuestion")
    (hthrow : env.handler ⟨requestId, toolName, toolInput, sessionId⟩ =
      HandlerOutcome.throws)
    (hmid : m.id = sid)
    (hdead : DeadSid sid sock ms0) (hnd : KeysNodup ms0)
    (h1 : ∀ ev ∈ tr1, isStartOfSid sid ev = false ∧ isStartOnSock sock ev = false)
    (h2 : ∀ ev ∈ tr2, isStartOfSid sid ev = false ∧ isStartOnSock sock ev = false) :
    (step env ms
        (.frame sock (.permissionRequest requestId toolName toolInput sessionId))).writes
      = [⟨sock, 0, .permissionResponse requestId
          ⟨.deny, some "Error processing request", none⟩⟩]
    ∧ endCount sid
        (runM env ms0 (tr1 ++ .frame sock (.sessionStart m sz) :: tr2)).emissions
      = (if tr2.any (isTriggerEv sid sock) then 1 else 0) := by
  constructor
  · simp only [step, handleSessionMessage]
    rw [if_neg htool]
    rw [hthrow]
    dsimp only
    unfold sendPermissionDecision
    rw [lookup_mapSet_self]
  · have ha := runC9_dead env sid sock tr1 ms0
      (fun e he => (h1 e he).1) (fun e he => (h1 e he).2) hdead
    have hnd1 := runM_keysNodup env tr1 ms0 hnd
    have hstart := stepC9_start env sid sock (runM env ms0 tr1).state m sz hmid ha.1
    have hnd2 := step_keysNodup env (runM env ms0 tr1).state
      (.frame sock (.sessionStart m sz)) hnd1
    have hb := runC9_live env sid sock tr2
      (step env (runM env ms0 tr1).state (.frame sock (.sessionStart m sz))).state
      (fun e he => (h2 e he).1) (fun e he => (h2 e he).2) hnd2 hstart.1
    have happ := runM_append env tr1 (.frame sock (.sessionStart m sz) :: tr2) ms0
    rw [happ.2.1, endCount_append, ha.2]
    have hshow : (runM env (runM env ms0 tr1).state
          (.frame sock (.sessionStart m sz) :: tr2)).emissions =
        (step env (runM env ms0 tr1).state
          (.frame sock (.sessionStart m sz))).emissions ++
        (runM env (step env (runM env ms0 tr1).state
          (.frame sock (.sessionStart m sz))).state tr2).emissions := rfl
    rw [hshow, endCount_append, hstart.2, hb]
    simp

theorem C9_throw_deny_and_end_once_witness :
    (step env9 msEmpty
        (.frame 1 (.permissionRequest "r" "Bash" "x" "S"))).writes
      = [⟨1, 0, .permissionResponse "r"
          ⟨.deny, some "Error processing request", none⟩⟩]
    ∧ endCount "S"
        (runM env9 msEmpty
          ([] ++ .frame 1 (.sessionStart startA 0) ::
            [.socketClose 1, .frame 1 (.sessionEnd "S")])).emissions
      = (if ([InEvent.socketClose 1,
              .frame 1 (.sessionEnd "S")]).any (isTriggerEv "S" 1) then 1 else 0) := by
  exact C9_throw_deny_and_end_once env9 msEmpty 1 "r" "Bash" "x" "S" "S" msEmpty
    [] [.socketClose 1, .frame 1 (.sessionEnd "S")] startA 0
    (by decide) rfl rfl
    ⟨rfl, fun p hp => absurd hp (List.not_mem_nil p)⟩
    (by simp [KeysNodup, msEmpty])
    (fun e he => absurd he (List.not_mem_nil e))
    (by intro e he
        simp at he
        rcases he with he | he <;> subst he <;> exact ⟨rfl, rfl⟩)

theorem chatStep_filter_gateFree (hash : String → String) (now : Nat)
    (type : Option String) (im : Bool) (st : Option String) (ts : Option Nat)
    (msg : Option LogMessage) (acc : InternalSession × List Emission) :
    (chatStep hash now type im st ts msg acc).2.filter gateFreeEmission =
      acc.2.filter gateFreeEmission := by
  unfold chatStep
  dsimp only
  repeat' split
  all_goals simp [gateFreeEmission, List.filter_append]

theorem chatStep_gate_fail (hash : String → String) (now : Nat)
    (type : Option String) (im : Bool) (st : Option String) (ts : Option Nat)
    (msg : Option LogMessage) (acc : InternalSession × List Emission)
    (h : im = true ∨ optTruthy st = true) :
    chatStep hash now type im st ts msg acc = acc := by
  unfold chatStep
  rw [if_neg]
  rintro ⟨-, h2, h3⟩
  rcases h with h | h
  · rw [h] at h2; exact Bool.noConfusion h2
  · rw [h] at h3; exact Bool.noConfusion h3

theorem chatStep_time_gate (hash : String → String) (now : Nat)
    (type : Option String) (im : Bool) (st : Option String) (ts : Option Nat)
    (msg : Option LogMessage) (acc : InternalSession × List Emission)
    (h : effTime now ts < acc.1.startedAt) :
    chatStep hash now type im st ts msg acc = acc := by
  unfold chatStep
  dsimp only
  repeat' split
  all_goals first | rfl | omega

/-- C10: the session-start-timestamp gate and the isMeta/subtype exclusion
of `processJsonl` apply only to the chat message(role, text) emission:
(i) the tool-call, tool-result, todos, plan-mode-change and name-update
emissions derived from a record are unchanged under arbitrary changes of the
record's `isMeta`, `subtype` and `timestamp` fields; (ii) a record that is
meta or carries a (truthy) subtype contributes exactly the pre-chat
derivations, the chat block adding nothing; (iii) likewise when the record's
effective timestamp lies before the session's start. -/
theorem C10_gates_only_chat (hash : String → String) (now : Nat)
    (acc : InternalSession × List Emission) (data : LogRecord)
    (m : Bool) (st : Option String) (ts : Option Nat) :
    ((processRecord hash now acc
        { data with isMeta := m, subtype := st, timestamp := ts }).2.filter
          gateFreeEmission
      = (processRecord hash now acc data).2.filter gateFreeEmission)
    ∧ (data.isMeta = true ∨ optTruthy data.subtype = true →
        processRecord hash now acc data = preChatSteps hash data acc)
    ∧ (effTime now data.timestamp < (preChatSteps hash data acc).1.startedAt →
        processRecord hash now acc data = preChatSteps hash data acc) := by
  refine ⟨?_, ?_, ?_⟩
  · have h1 : processRecord hash now acc
        { data with isMeta := m, subtype := st, timestamp := ts } =
        chatStep hash now data.type m st ts data.message
          (preChatSteps hash data acc) := rfl
    have h2 : processRecord hash now acc data =
        chatStep hash now data.type data.isMeta data.subtype data.timestamp
          data.message (preChatSteps hash data acc) := rfl
    rw [h1, h2, chatStep_filter_gateFree, chatStep_filter_gateFree]
  · intro h
    exact chatStep_gate_fail hash now data.type data.isMeta data.subtype
      data.timestamp data.message (preChatSteps hash data acc) h
  · intro h
    exact chatStep_time_gate hash now data.type data.isMeta data.subtype
      data.timestamp data.message (preChatSteps hash data acc) h

theorem C10_gates_only_chat_witness :
    ((processRecord (fun x => x) 0 (sessLate, [])
        { recC10 with isMeta := false, subtype := some "x",
                      timestamp := some 99 }).2.filter gateFreeEmission
      = (processRecord (fun x => x) 0 (sessLate, []) recC10).2.filter
          gateFreeEmission)
    ∧ (recC10.isMeta = true ∨ optTruthy recC10.subtype = true →
        processRecord (fun x => x) 0 (sessLate, []) recC10 =
          preChatSteps (fun x => x) recC10 (sessLate, []))
    ∧ (effTime 0 recC10.timestamp <
          (preChatSteps (fun x => x) recC10 (sessLate, [])).1.startedAt →
        processRecord (fun x => x) 0 (sessLate, []) recC10 =
          preChatSteps (fun x => x) recC10 (sessLate, []))
    ∧ processRecord (fun x => x) 0 (sessLate, []) recC10 =
        preChatSteps (fun x => x) recC10 (sessLate, [])
    ∧ effTime 0 recC10.timestamp <
        (preChatSteps (fun x => x) recC10 (sessLate, [])).1.startedAt := by
  obtain ⟨a, b, c⟩ := C10_gates_only_chat (fun x => x) 0 (sessLate, []) recC10
    false (some "x") (some 99)
  have ht : effTime 0 recC10.timestamp <
      (preChatSteps (fun x => x) recC10 (sessLate, [])).1.startedAt := by decide
  exact ⟨a, b, c, b (Or.inl rfl), ht⟩

theorem getLastD_irrel {α : Type} (x : α) (l : List α) (d d' : α) :
    (x :: l).getLastD d = (x :: l).getLastD d' := by
  cases l with
  | nil => rfl
  | cons y ys =>
    rw [List.getLastD_cons d x (y :: ys), List.getLastD_cons d' x (y :: ys)]

theorem splitNl_spec : ∀ l : List Char,
    (splitNl l).length = l.count '\n' + 1 ∧
    '\n' ∉ (splitNl l).getLastD [] ∧
    ((splitNl l).getLastD [] = l ∨
      ∃ k, l = k ++ '\n' :: (splitNl l).getLastD []) := by
  intro l
  induction l with
  | nil =>
    refine ⟨rfl, ?_, Or.inl rfl⟩
    intro h
    exact absurd h (List.not_mem_nil _)
  | cons c rest ih =>
    obtain ⟨ihlen, ihnl, ihsuf⟩ := ih
    cases hsp : splitNl rest with
    | nil =>
      rw [hsp] at ihlen
      simp at ihlen
    | cons p ps =>
      rw [hsp] at ihlen ihnl ihsuf
      by_cases hc : c = '\n'
      · subst hc
        have hsplit : splitNl ('\n' :: rest) = [] :: p :: ps := by
          simp [splitNl, hsp]
        rw [hsplit]
        have hlast : ([] :: p :: ps).getLastD ([] : List Char) =
            (p :: ps).getLastD [] := List.getLastD_cons _ _ _
        refine ⟨?_, ?_, ?_⟩
        · simp [List.count_cons] at ihlen ⊢
          omega
        · rw [hlast]; exact ihnl
        · rw [hlast]
          rcases ihsuf with h | ⟨k, hk⟩
          · exact Or.inr ⟨[], by rw [h]; rfl⟩
          · exact Or.inr ⟨'\n' :: k, by rw [hk]; rfl⟩
      · have hsplit : splitNl (c :: rest) = (c :: p) :: ps := by
          simp [splitNl, hsp, hc]
        rw [hsplit]
        cases ps with
        | nil =>
          have hp : p = rest := by
            rcases ihsuf with h | ⟨k, hk⟩
            · exact h
            · exfalso
              have hcount : rest.count '\n' = 0 := by
                simp at ihlen
                omega
              rw [hk] at hcount
              simp [List.count_append, List.count_cons] at hcount
          subst hp
          refine ⟨?_, ?_, Or.inl rfl⟩
          · simp [List.count_cons, hc] at ihlen ⊢
            omega
          · intro h
            rcases List.mem_cons.mp h with h | h
            · exact hc h.symm
            · exact ihnl h
        | cons q qs =>
          have hlast2 : ((c :: p) :: q :: qs).getLastD ([] : List Char) =
              (p :: q :: qs).getLastD [] := by
            rw [List.getLastD_cons [] (c :: p) (q :: qs),
              List.getLastD_cons [] p (q :: qs)]
            exact getLastD_irrel q qs _ _
          refine ⟨?_, ?_, ?_⟩
          · simp [List.count_cons, hc] at ihlen ⊢
            omega
          · rw [hlast2]; exact ihnl
          · rw [hlast2]
            rcases ihsuf with h | ⟨k, hk⟩
            · exfalso
              have hpos : 0 < rest.count '\n' := by
                simp at ihlen
                omega
              have hmem : '\n' ∈ rest := List.count_pos_iff.mp hpos
              rw [← h] at hmem
              exact ihnl hmem
            · exact Or.inr ⟨c :: k, by rw [hk]; rfl⟩

theorem splitNl_single (l : List Char) (h : '\n' ∉ l) : splitNl l = [l] := by
  induction l with
  | nil => rfl
  | cons c rest ih =>
    have hc : c ≠ '\n' := fun he => h (he ▸ List.mem_cons_self c rest)
    have hr : '\n' ∉ rest := fun hm => h (List.mem_cons_of_mem c hm)
    simp [splitNl, ih hr, hc]

theorem splitNl_append_nl (a : List Char) (h : '\n' ∉ a) :
    splitNl (a ++ ['\n']) = [a, []] := by
  induction a with
  | nil => rfl
  | cons c a ih =>
    have hc : c ≠ '\n' := fun he => h (he ▸ List.mem_cons_self c a)
    have ha : '\n' ∉ a := fun hm => h (List.mem_cons_of_mem c hm)
    simp [splitNl, ih ha, hc]

theorem frag_suffix (l : List Char) :
    ∃ pre, pre ++ (splitNl l).getLastD [] = l := by
  rcases (splitNl_spec l).2.2 with h | ⟨k, hk⟩
  · exact ⟨[], by rw [List.nil_append, h]⟩
  · refine ⟨k ++ ['\n'], ?_⟩
    conv_rhs => rw [hk]
    simp

theorem frag_length_le (l : List Char) :
    ((splitNl l).getLastD []).length ≤ l.length := by
  obtain ⟨pre, hp⟩ := frag_suffix l
  conv_rhs => rw [← hp]
  rw [List.length_append]
  omega

theorem drop_append_of_le {α : Type} (l₁ l₂ : List α) (n : Nat)
    (h : n ≤ l₁.length) : (l₁ ++ l₂).drop n = l₁.drop n ++ l₂ := by
  rw [List.drop_append_eq_append_drop, Nat.sub_eq_zero_of_le h, List.drop_zero]

theorem drop_length_sub_of_suffix {α : Type} {l t : List α} (pre : List α)
    (h : pre ++ t = l) : l.drop (l.length - t.length) = t := by
  subst h
  have hlen : (pre ++ t).length - t.length = pre.length := by simp
  rw [hlen, List.drop_left]

/-- A tail run over bytes whose unread region contains no newline leaves the
session untouched and emits nothing (the unread region is an incomplete
line, or empty). -/
theorem processJsonl_noop (hash : String → String)
    (parse : String → Option LogRecord) (now : Nat) (t : InternalSession)
    (buffer : List Char)
    (hpath : t.jsonlPath ≠ "") (hproc : t.processing = false)
    (hnl : '\n' ∉ buffer.drop t.lastProcessedSize)
    (hle : t.lastProcessedSize ≤ buffer.length) :
    processJsonl hash parse now t buffer = (t, []) := by
  by_cases hlen : buffer.length ≤ t.lastProcessedSize
  · unfold processJsonl
    rw [if_neg hpath, if_neg (by simp [hproc]), if_pos hlen]
  · unfold processJsonl
    rw [if_neg hpath, if_neg (by simp [hproc]), if_neg hlen]
    dsimp only
    rw [splitNl_single _ hnl]
    have hlps : buffer.length - (buffer.drop t.lastProcessedSize).length =
        t.lastProcessedSize := by
      rw [List.length_drop]
      omega
    show ({ t with lastProcessedSize :=
        buffer.length - (buffer.drop t.lastProcessedSize).length },
      ([] : List Emission)) = (t, [])
    rw [hlps]

/-- C3: invariants of the saved tail offset.  In the active case (watched
path set, not re-entered, file grew): (1) the new offset is the file length
minus the trailing newline-less fragment; hence (2) it is monotonically
non-decreasing and (3) never exceeds the file length; (4) the withheld
fragment contains no newline; (5) the run processes exactly the complete
new lines, the fragment excluded; (6) on any later read the fragment's bytes
are re-read (the unread region starts with them); (7) once the pending line
is completed by a newline, the next run parses exactly the completed line;
(8) re-presenting the same bytes to the updated session emits nothing. -/
theorem C3_offset_invariants (hash : String → String)
    (parse : String → Option LogRecord) (now : Nat) (s : InternalSession)
    (buffer frag : List Char)
    (hpath : s.jsonlPath ≠ "") (hproc : s.processing = false)
    (hlt : s.lastProcessedSize < buffer.length)
    (hfrag : frag = (splitNl (buffer.drop s.lastProcessedSize)).getLastD []) :
    (processJsonl hash parse now s buffer).1.lastProcessedSize =
        buffer.length - frag.length
    ∧ s.lastProcessedSize ≤
        (processJsonl hash parse now s buffer).1.lastProcessedSize
    ∧ (processJsonl hash parse now s buffer).1.lastProcessedSize ≤ buffer.length
    ∧ '\n' ∉ frag
    ∧ processJsonl hash parse now s buffer =
        (runLines s buffer).foldl (processLine hash parse now)
          ({ s with lastProcessedSize := buffer.length - frag.length }, [])
    ∧ (∀ ext, (buffer ++ ext).drop
          (processJsonl hash parse now s buffer).1.lastProcessedSize =
        frag ++ ext)
    ∧ (∀ ext, '\n' ∉ frag ++ ext → (frag ++ ext).isEmpty = false →
        runLines (processJsonl hash parse now s buffer).1
          (buffer ++ (ext ++ ['\n'])) = [frag ++ ext])
    ∧ processJsonl hash parse now (processJsonl hash parse now s buffer).1 buffer
        = ((processJsonl hash parse now s buffer).1, []) := by
  subst hfrag
  have hspec := splitNl_spec (buffer.drop s.lastProcessedSize)
  have hfl : ((splitNl (buffer.drop s.lastProcessedSize)).getLastD []).length ≤
      buffer.length - s.lastProcessedSize := by
    have h := frag_length_le (buffer.drop s.lastProcessedSize)
    simpa using h
  have hrun : processJsonl hash parse now s buffer =
      (runLines s buffer).foldl (processLine hash parse now)
        ({ s with lastProcessedSize := buffer.length -
            ((splitNl (buffer.drop s.lastProcessedSize)).getLastD []).length },
         []) := by
    unfold processJsonl
    rw [if_neg hpath, if_neg (by simp [hproc]), if_neg (Nat.not_le.mpr hlt)]
    rfl
  have h1 : (processJsonl hash parse now s buffer).1.lastProcessedSize =
      buffer.length -
        ((splitNl (buffer.drop s.lastProcessedSize)).getLastD []).length := by
    rw [hrun]
    exact (foldProcessLine_stable hash parse now _ _).2.2.2.2.1
  have hpath' : (processJsonl hash parse now s buffer).1.jsonlPath =
      s.jsonlPath := by
    rw [hrun]
    exact (foldProcessLine_stable hash parse now _ _).2.2.2.1
  have hproc' : (processJsonl hash parse now s buffer).1.processing = false := by
    rw [hrun]
    exact ((foldProcessLine_stable hash parse now _ _).2.2.2.2.2).trans hproc
  have hdrop : buffer.drop (buffer.length -
      ((splitNl (buffer.drop s.lastProcessedSize)).getLastD []).length) =
      (splitNl (buffer.drop s.lastProcessedSize)).getLastD [] := by
    obtain ⟨pre, hpre⟩ := frag_suffix (buffer.drop s.lastProcessedSize)
    have hfull : (buffer.take s.lastProcessedSize ++ pre) ++
        (splitNl (buffer.drop s.lastProcessedSize)).getLastD [] = buffer := by
      rw [List.append_assoc, hpre, List.take_append_drop]
    exact drop_length_sub_of_suffix _ hfull
  refine ⟨h1, ?_, ?_, hspec.2.1, hrun, ?_, ?_, ?_⟩
  · rw [h1]; omega
  · rw [h1]; omega
  · intro ext
    rw [h1, drop_append_of_le _ _ _ (by omega), hdrop]
  · intro ext hne hnonempty
    unfold runLines
    rw [h1, drop_append_of_le _ _ _ (by omega), hdrop, ← List.append_assoc,
      splitNl_append_nl _ hne]
    show [(splitNl (buffer.drop s.lastProcessedSize)).getLastD [] ++
        ext].filter (fun p => !p.isEmpty) =
      [(splitNl (buffer.drop s.lastProcessedSize)).getLastD [] ++ ext]
    rw [List.filter_cons, hnonempty]
    simp
  · refine processJsonl_noop hash parse now _ buffer ?_ hproc' ?_ ?_
    · rw [hpath']; exact hpath
    · rw [h1, hdrop]; exact hspec.2.1
    · rw [h1]; omega

theorem C3_offset_invariants_witness :
    ((processJsonl (fun x => x) (fun _ => none) 0 sess0
        ['a','b','\n','c','d']).1.lastProcessedSize
      = ['a','b','\n','c','d'].length - ['c','d'].length)
    ∧ sess0.lastProcessedSize ≤
        (processJsonl (fun x => x) (fun _ => none) 0 sess0
          ['a','b','\n','c','d']).1.lastProcessedSize
    ∧ (processJsonl (fun x => x) (fun _ => none) 0 sess0
        ['a','b','\n','c','d']).1.lastProcessedSize ≤
        ['a','b','\n','c','d'].length
    ∧ '\n' ∉ ['c','d']
    ∧ processJsonl (fun x => x) (fun _ => none) 0 sess0 ['a','b','\n','c','d'] =
        (runLines sess0 ['a','b','\n','c','d']).foldl
          (processLine (fun x => x) (fun _ => none) 0)
          ({ sess0 with lastProcessedSize :=
              ['a','b','\n','c','d'].length - ['c','d'].length }, [])
    ∧ (['a','b','\n','c','d'] ++ ['!','\n']).drop
        (processJsonl (fun x => x) (fun _ => none) 0 sess0
          ['a','b','\n','c','d']).1.lastProcessedSize = ['c','d'] ++ ['!','\n']
    ∧ runLines (processJsonl (fun x => x) (fun _ => none) 0 sess0
          ['a','b','\n','c','d']).1
        (['a','b','\n','c','d'] ++ (['!'] ++ ['\n'])) = [['c','d'] ++ ['!']]
    ∧ processJsonl (fun x => x) (fun _ => none) 0
        (processJsonl (fun x => x) (fun _ => none) 0 sess0
          ['a','b','\n','c','d']).1 ['a','b','\n','c','d']
      = ((processJsonl (fun x => x) (fun _ => none) 0 sess0
          ['a','b','\n','c','d']).1, []) := by
  obtain ⟨h1, h2, h3, h4, h5, h6, h7, h8⟩ :=
    C3_offset_invariants (fun x => x) (fun _ => none) 0 sess0
      ['a','b','\n','c','d'] ['c','d']
      (by decide) rfl (by decide) (by decide)
  exact ⟨h1, h2, h3, h4, h5, h6 ['!','\n'], h7 ['!'] (by decide) (by decide), h8⟩

theorem mapSet_singleton {β : Type} (k : String) (v v' : β) :
    mapSet [(k, v)] k v' = [(k, v')] := by
  unfold mapSet
  rw [lookup_cons_eqn]
  simp

theorem ptyKey_ne_empty (sid c : String) : ptyKey sid c ≠ "" := by
  intro h
  have hl := congrArg String.length h
  rw [ptyKey] at hl
  rw [String.length_append, String.length_append, String.length_append] at hl
  have h4 : ("pty:" : String).length = 4 := rfl
  have h1 : (":" : String).length = 1 := rfl
  have h0 : ("" : String).length = 0 := rfl
  omega

theorem ptyKey_inj {sid a b : String} (h : ptyKey sid a = ptyKey sid b) :
    a = b := by
  unfold ptyKey at h
  exact string_append_left_cancel h

theorem dropWhile_no (l : List Char)
    (h : ∀ c ∈ l, c.isWhitespace = false) :
    l.dropWhile Char.isWhitespace = l := by
  cases l with
  | nil => rfl
  | cons c cs =>
    rw [List.dropWhile_cons, h c (List.mem_cons_self c cs)]
    simp

theorem trimChars_no (l : List Char)
    (h : ∀ c ∈ l, c.isWhitespace = false) : trimChars l = l := by
  unfold trimChars
  rw [dropWhile_no l h,
    dropWhile_no l.reverse (fun c hc => h c (List.mem_reverse.mp hc)),
    List.reverse_reverse]

theorem jsTrim_no (s : String)
    (h : ∀ c ∈ s.data, c.isWhitespace = false) : jsTrim s = s := by
  unfold jsTrim
  rw [trimChars_no s.data h]

theorem jsTake_of_le (s : String) (n : Nat) (h : s.data.length ≤ n) :
    jsTake s n = s := by
  unfold jsTake
  rw [List.take_all_of_le h]

theorem freshKey_no_ws (i : Nat) :
    ∀ ch ∈ (freshKey i).data, ch.isWhitespace = false := by
  intro ch hch
  rcases List.mem_map.mp hch with ⟨j, _, rfl⟩
  unfold bitChar
  split <;> decide

theorem freshKey_ne_A (i : Nat) : freshKey i ≠ "A" := by
  intro h
  have hl := congrArg (fun s => s.data.length) h
  simp only [freshKey] at hl
  rw [List.length_map, List.length_range] at hl
  exact absurd hl (by decide)

theorem freshKey_ne_empty (i : Nat) : freshKey i ≠ "" := by
  intro h
  have hl := congrArg (fun s => s.data.length) h
  simp only [freshKey] at hl
  rw [List.length_map, List.length_range] at hl
  exact absurd hl (by decide)

theorem freshKey_inj {i j : Nat} (hi : i < 2 ^ 14) (hj : j < 2 ^ 14)
    (h : freshKey i = freshKey j) : i = j := by
  have hdata : (List.range 14).map (bitChar i) = (List.range 14).map (bitChar j) :=
    congrArg String.data h
  have hpt := List.map_inj_left.mp hdata
  refine Nat.eq_of_testBit_eq ?_
  intro k
  by_cases hk : k < 14
  · have hbc := hpt k (List.mem_range.mpr hk)
    unfold bitChar at hbc
    cases h1 : i.testBit k <;> cases h2 : j.testBit k
    · rfl
    · rw [h1, h2] at hbc
      exact absurd hbc (by decide)
    · rw [h1, h2] at hbc
      exact absurd hbc (by decide)
    · rfl
  · have h14 : 14 ≤ k := Nat.not_lt.mp hk
    have hpow : 2 ^ 14 ≤ 2 ^ k := Nat.pow_le_pow_right (by omega) h14
    rw [Nat.testBit_lt_two_pow (lt_of_lt_of_le hi hpow),
      Nat.testBit_lt_two_pow (lt_of_lt_of_le hj hpow)]

theorem freshKeys_ptyKey_nodup :
    (freshMsgs.map (fun c => ptyKey "S" c)).Nodup := by
  unfold freshMsgs
  rw [List.map_map]
  refine (List.nodup_range 10001).map_on ?_
  intro x hx y hy h
  simp only [Function.comp] at h
  exact freshKey_inj
    (lt_of_lt_of_le (List.mem_range.mp hx) (by decide))
    (lt_of_lt_of_le (List.mem_range.mp hy) (by decide))
    (ptyKey_inj h)

theorem keyA_not_in_freshKeys :
    ptyKey "S" "A" ∉ freshMsgs.map (fun c => ptyKey "S" c) := by
  intro hmem
  rcases List.mem_map.mp hmem with ⟨c, hc, hkey⟩
  rcases List.mem_map.mp hc with ⟨i, _, rfl⟩
  exact freshKey_ne_A i (ptyKey_inj hkey)

theorem runPty_fresh : ∀ (cs : List String) (s : InternalSession)
    (pp : List (String × SocketId)) (pq : List (String × String)) (sid : String),
    s.id = sid → GoodSeen s →
    (∀ c ∈ cs, jsTrim c = c ∧ c ≠ "" ∧ jsTake c 100 = c) →
    (cs.map (fun c => ptyKey sid c)).Nodup →
    (∀ c ∈ cs, ptyKey sid c ∉ s.seenMessagesOrder) →
    ∃ sF, runPty (fun x => x) ⟨[(sid, s)], pp, pq⟩ sid cs =
        (⟨[(sid, sF)], pp, pq⟩,
         cs.map (fun c => Emission.message sid "assistant" c)) ∧
      sF.id = sid ∧ GoodSeen sF ∧
      sF.seenMessagesOrder =
        (s.seenMessagesOrder ++ cs.map (fun c => ptyKey sid c)).drop
          (s.seenMessagesOrder.length + cs.length - MAX_SEEN_MESSAGES) := by
  intro cs
  induction cs with
  | nil =>
    intro s pp pq sid hid hGood _ _ _
    refine ⟨s, rfl, hid, hGood, ?_⟩
    have hlen := hGood.2.2.2
    rw [List.map_nil, List.append_nil]
    have hz : s.seenMessagesOrder.length + ([] : List String).length -
        MAX_SEEN_MESSAGES = 0 := by
      simp only [List.length_nil]
      omega
    rw [hz, List.drop_zero]
  | cons c cs ih =>
    intro s pp pq sid hid hGood hcs hnodup hfresh
    obtain ⟨htrim, hne, htake⟩ := hcs c (List.mem_cons_self c cs)
    have hkfresh : ptyKey sid c ∉ s.seenMessagesOrder :=
      hfresh c (List.mem_cons_self c cs)
    have hkne : ptyKey sid c ≠ "" := ptyKey_ne_empty sid c
    rw [List.map_cons] at hnodup
    obtain ⟨hhead, htail⟩ := List.nodup_cons.mp hnodup
    have hcont : s.seenMessages.contains (ptyKey sid c) = false := by
      rw [hGood.1]
      cases hx : s.seenMessagesOrder.contains (ptyKey sid c)
      · rfl
      · exact absurd ((contains_eq_mem _ _).mp hx) hkfresh
    have hstep : ptyOutputStep (fun x => x)
        (⟨[(sid, s)], pp, pq⟩ : ManagerState) sid (some c) =
        (⟨[(sid, addSeenMessage s (ptyKey sid c))], pp, pq⟩,
         [Emission.message sid "assistant" c]) := by
      unfold ptyOutputStep
      rw [lookup_cons_eqn, if_pos rfl]
      dsimp only
      rw [htrim]
      simp only [if_neg hne]
      rw [htake, hid, hcont]
      simp only [Bool.false_eq_true, if_false]
      rw [mapSet_singleton]
    have hfresh' : ∀ c' ∈ cs,
        ptyKey sid c' ∉ (addSeenMessage s (ptyKey sid c)).seenMessagesOrder := by
      intro c' hc' hmem
      rw [addSeenMessage_fresh s _ hGood hkfresh hkne] at hmem
      rcases (pushSeen_good s.seenMessagesOrder _ hGood.2.1 hGood.2.2.1
          hGood.2.2.2 hkfresh hkne).2.2.2.2 _ hmem with he | hm
      · have hin : ptyKey sid c' ∈ cs.map (fun c => ptyKey sid c) :=
          List.mem_map.mpr ⟨c', hc', rfl⟩
        rw [he] at hin
        exact hhead hin
      · exact hfresh c' (List.mem_cons_of_mem _ hc') hm
    obtain ⟨hGood', hmem'⟩ :=
      addSeenMessage_fresh_good s (ptyKey sid c) hGood hkfresh hkne
    obtain ⟨sF, hrunEq, hidF, hGoodF, horderF⟩ :=
      ih (addSeenMessage s (ptyKey sid c)) pp pq sid
        ((addSeenMessage_id s _).trans hid) hGood'
        (fun c' hc' => hcs c' (List.mem_cons_of_mem _ hc'))
        htail hfresh'
    refine ⟨sF, ?_, hidF, hGoodF, ?_⟩
    · rw [show runPty (fun x => x) (⟨[(sid, s)], pp, pq⟩ : ManagerState) sid
          (c :: cs) =
        ((runPty (fun x => x)
            (ptyOutputStep (fun x => x) ⟨[(sid, s)], pp, pq⟩ sid (some c)).1
            sid cs).1,
         (ptyOutputStep (fun x => x) ⟨[(sid, s)], pp, pq⟩ sid (some c)).2 ++
         (runPty (fun x => x)
            (ptyOutputStep (fun x => x) ⟨[(sid, s)], pp, pq⟩ sid (some c)).1
            sid cs).2) from rfl]
      rw [hstep]
      dsimp only
      rw [hrunEq]
      rfl
    · rw [horderF, addSeenMessage_fresh s _ hGood hkfresh hkne]
      dsimp only
      unfold pushSeen
      by_cases hfull : s.seenMessagesOrder.length = MAX_SEEN_MESSAGES
      · rw [if_pos hfull]
        cases horder : s.seenMessagesOrder with
        | nil =>
          rw [horder] at hfull
          simp [MAX_SEEN_MESSAGES] at hfull
        | cons a t =>
          rw [horder] at hfull
          simp only [List.length_cons] at hfull
          have h1 : ((a :: t).tail ++ [ptyKey sid c]).length + cs.length -
              MAX_SEEN_MESSAGES = cs.length := by
            simp only [List.tail_cons, List.length_append,
              List.length_singleton, List.length_cons, List.length_nil]
            omega
          have h2 : (a :: t).length + (c :: cs).length - MAX_SEEN_MESSAGES =
              cs.length + 1 := by
            simp only [List.length_cons]
            omega
          rw [h1, h2, List.tail_cons, List.map_cons, List.cons_append,
            List.drop_succ_cons, List.append_assoc, List.singleton_append]
      · rw [if_neg hfull]
        have hlen : (s.seenMessagesOrder ++ [ptyKey sid c]).length +
            cs.length - MAX_SEEN_MESSAGES =
            s.seenMessagesOrder.length + (c :: cs).length -
              MAX_SEEN_MESSAGES := by
          simp only [List.length_append, List.length_singleton,
            List.length_cons, List.length_nil]
          omega
        rw [hlen, List.map_cons, List.append_assoc, List.singleton_append]

theorem runPty_append (hash : String → String) (sid : String) :
    ∀ (a b : List String) (ms : ManagerState),
    runPty hash ms sid (a ++ b) =
      ((runPty hash (runPty hash ms sid a).1 sid b).1,
       (runPty hash ms sid a).2 ++
         (runPty hash (runPty hash ms sid a).1 sid b).2) := by
  intro a
  induction a with
  | nil => intro b ms; rfl
  | cons x a ih =>
    intro b ms
    show ((runPty hash (ptyOutputStep hash ms sid (some x)).1 sid (a ++ b)).1,
      (ptyOutputStep hash ms sid (some x)).2 ++
        (runPty hash (ptyOutputStep hash ms sid (some x)).1 sid (a ++ b)).2) = _
    rw [ih b (ptyOutputStep hash ms sid (some x)).1]
    dsimp only
    rw [← List.append_assoc]
    rfl

theorem freshMsgs_length : freshMsgs.length = 10001 := by
  simp [freshMsgs]

/-- C1 counterexample: with the identity hash, the pty message "A" followed
by 10001 pairwise-distinct other messages and then "A" again yields a run in
which EVERY arrival is emitted — in particular the second arrival of "A",
whose dedup key had been evicted from the capped seen set by the 10001
intervening keys, is emitted again rather than suppressed.  The chat-adapter
emission `message "S" "assistant" "A"` therefore occurs twice in one
session, refuting "only the first arrival triggers a message emission ...
any later arrival of a message with the same key ... is silently
suppressed". -/
theorem C1_counterexample :
    (runPty (fun x => x) msA "S" (("A" :: freshMsgs) ++ ["A"])).2 =
      (("A" :: freshMsgs) ++ ["A"]).map
        (fun c => Emission.message "S" "assistant" c)
    ∧ ((runPty (fun x => x) msA "S" (("A" :: freshMsgs) ++ ["A"])).2.filter
        (fun e => e == Emission.message "S" "assistant" "A")).length = 2 := by
  have hGood0 : GoodSeen sess0 :=
    ⟨rfl, List.nodup_nil, List.not_mem_nil _, by decide⟩
  have hconds1 : ∀ c ∈ ("A" :: freshMsgs),
      jsTrim c = c ∧ c ≠ "" ∧ jsTake c 100 = c := by
    intro c hc
    rcases List.mem_cons.mp hc with rfl | hm
    · exact ⟨by decide, by decide, by decide⟩
    · rcases List.mem_map.mp
          (show c ∈ (List.range 10001).map freshKey from hm) with ⟨i, _, rfl⟩
      have hl : (freshKey i).data.length = 14 := by simp [freshKey]
      exact ⟨jsTrim_no _ (freshKey_no_ws i), freshKey_ne_empty i,
        jsTake_of_le _ _ (by rw [hl]; omega)⟩
  have hnodup1 : (("A" :: freshMsgs).map (fun c => ptyKey "S" c)).Nodup := by
    rw [List.map_cons]
    exact List.nodup_cons.mpr ⟨keyA_not_in_freshKeys, freshKeys_ptyKey_nodup⟩
  have hfresh1 : ∀ c ∈ ("A" :: freshMsgs),
      ptyKey "S" c ∉ sess0.seenMessagesOrder := by
    intro c _ h
    exact List.not_mem_nil _ h
  obtain ⟨sF, hrun1, hidF, hGoodF, horder⟩ :=
    runPty_fresh ("A" :: freshMsgs) sess0 [] [] "S" rfl hGood0 hconds1
      hnodup1 hfresh1
  have hs0 : sess0.seenMessagesOrder = [] := rfl
  rw [hs0] at horder
  simp only [List.nil_append, List.length_nil] at horder
  have hamt : 0 + ("A" :: freshMsgs).length - MAX_SEEN_MESSAGES = 2 := by
    simp only [List.length_cons, freshMsgs_length]
    decide
  rw [hamt, List.map_cons] at horder
  have hd2 : List.drop 2
      (ptyKey "S" "A" :: freshMsgs.map (fun c => ptyKey "S" c)) =
      List.drop 1 (freshMsgs.map (fun c => ptyKey "S" c)) := by
    rw [show (2 : Nat) = 1 + 1 from rfl]
    exact List.drop_succ_cons
  rw [hd2] at horder
  have hkA : ptyKey "S" "A" ∉ sF.seenMessagesOrder := by
    rw [horder]
    intro h
    exact keyA_not_in_freshKeys (List.mem_of_mem_drop h)
  have hconds2 : ∀ c ∈ (["A"] : List String),
      jsTrim c = c ∧ c ≠ "" ∧ jsTake c 100 = c := by
    intro c hc
    simp at hc
    subst hc
    exact ⟨by decide, by decide, by decide⟩
  have hfresh2 : ∀ c ∈ (["A"] : List String),
      ptyKey "S" c ∉ sF.seenMessagesOrder := by
    intro c hc
    simp at hc
    subst hc
    exact hkA
  obtain ⟨sG, hrun2, _, _, _⟩ :=
    runPty_fresh ["A"] sF [] [] "S" hidF hGoodF hconds2 (by simp) hfresh2
  have hemit : (runPty (fun x => x) msA "S" (("A" :: freshMsgs) ++ ["A"])).2 =
      (("A" :: freshMsgs) ++ ["A"]).map
        (fun c => Emission.message "S" "assistant" c) := by
    rw [runPty_append (fun x => x) "S" ("A" :: freshMsgs) ["A"] msA]
    dsimp only
    have hrun1' : runPty (fun x => x) msA "S" ("A" :: freshMsgs) =
        ((⟨[("S", sF)], [], []⟩ : ManagerState),
         ("A" :: freshMsgs).map (fun c => Emission.message "S" "assistant" c)) :=
      hrun1
    rw [hrun1']
    dsimp only
    rw [hrun2]
    dsimp only
    rw [← List.map_append]
  refine ⟨hemit, ?_⟩
  rw [hemit, List.filter_map, List.length_map]
  have hfc : List.filter
      ((fun e => e == Emission.message "S" "assistant" "A") ∘
        (fun c => Emission.message "S" "assistant" c))
      (("A" :: freshMsgs) ++ ["A"]) =
      List.filter (fun c => c == "A") (("A" :: freshMsgs) ++ ["A"]) := by
    refine List.filter_congr ?_
    intro x _
    simp only [Function.comp]
    by_cases hx : x = "A"
    · subst hx
      simp
    · have h1 : (Emission.message "S" "assistant" x ==
          Emission.message "S" "assistant" "A") = false := by
        rw [beq_eq_false_iff_ne]
        intro he
        exact hx (by simpa using he)
      rw [h1]
      exact (beq_eq_false_iff_ne.mpr hx).symm
  rw [hfc, List.filter_append, List.length_append]
  have hf0 : List.filter (fun c => c == "A") freshMsgs = [] := by
    rw [List.filter_eq_nil_iff]
    intro a ha
    rcases List.mem_map.mp
        (show a ∈ (List.range 10001).map freshKey from ha) with ⟨i, _, rfl⟩
    simp
    exact freshKey_ne_A i
  have hA : List.filter (fun c => c == "A") ("A" :: freshMsgs) = ["A"] := by
    rw [List.filter_cons]
    simp [hf0]
  rw [hA]
  decide

/-- C1 (amended): first arrival wins while the key remains in the seen set.
For the shared dedup key `pty:<id>:<hash of first 100 chars of trimmed
text>`: (1) a pty_output frame whose key is already in the seen set is
silently suppressed (no state change, no emission); (2) a pty_output frame
with an unseen key emits the message once and records the key; (3) a fresh
insertion really records the key; (4) a chat record from the event-log
tailer carrying the same text emits no message event when the key is in the
seen set; (5) and emits exactly one message event when the key is unseen
(and the record passes the chat gates). -/
theorem C1_first_arrival_wins (hash : String → String) (ms : ManagerState)
    (sid raw key : String) (session : InternalSession)
    (hlook : ms.sessions.lookup sid = some session)
    (hraw : raw ≠ "") (htrim : jsTrim raw ≠ "")
    (hkey : key = ptyKey session.id (hash (jsTake (jsTrim raw) 100))) :
    (key ∈ session.seenMessages →
      ptyOutputStep hash ms sid (some raw) = (ms, []))
    ∧ (key ∉ session.seenMessages →
      ptyOutputStep hash ms sid (some raw) =
        ({ ms with
            sessions := mapSet ms.sessions sid (addSeenMessage session key) },
         [Emission.message session.id "assistant" (jsTrim raw)]))
    ∧ (GoodSeen session → key ∉ session.seenMessagesOrder → key ≠ "" →
        key ∈ (addSeenMessage session key).seenMessages)
    ∧ (∀ now ts role,
        key ∈ session.seenMessages →
        ((chatStep hash now (some "user") false none ts
            (some ⟨some role, some (Sum.inl raw)⟩) (session, [])).2.filter
          isMsgEmission) = [])
    ∧ (∀ now ts role, role ≠ "" → session.startedAt ≤ effTime now ts →
        key ∉ session.seenMessages →
        ((chatStep hash now (some "user") false none ts
            (some ⟨some role, some (Sum.inl raw)⟩) (session, [])).2.filter
          isMsgEmission) = [Emission.message session.id role (jsTrim raw)]) := by
  refine ⟨?_, ?_, ?_, ?_, ?_⟩
  · intro hmem
    unfold ptyOutputStep
    rw [hlook]
    dsimp only
    rw [if_neg hraw, if_neg htrim,
      (contains_eq_mem _ _).mpr (hkey ▸ hmem)]
    rfl
  · intro hmem
    have hcont : session.seenMessages.contains
        (ptyKey session.id (hash (jsTake (jsTrim raw) 100))) = false := by
      cases hx : session.seenMessages.contains
          (ptyKey session.id (hash (jsTake (jsTrim raw) 100)))
      · rfl
      · exact absurd ((contains_eq_mem _ _).mp hx) (hkey ▸ hmem)
    unfold ptyOutputStep
    rw [hlook]
    dsimp only
    rw [if_neg hraw, if_neg htrim, hcont]
    simp only [Bool.false_eq_true, if_false]
    rw [← hkey]
  · exact fun hG hk hne => (addSeenMessage_fresh_good session key hG hk hne).2
  · intro now ts role hmem
    have hcont : session.seenMessages.contains
        (ptyKey session.id (hash (jsTake (jsTrim raw) 100))) = true :=
      (contains_eq_mem _ _).mpr (hkey ▸ hmem)
    unfold chatStep
    simp only [chatTextContent]
    rw [hcont]
    repeat' split
    all_goals simp_all [isMsgEmission]
  · intro now ts role hrole htime hmem
    have hcont : session.seenMessages.contains
        (ptyKey session.id (hash (jsTake (jsTrim raw) 100))) = false := by
      cases hx : session.seenMessages.contains
          (ptyKey session.id (hash (jsTake (jsTrim raw) 100)))
      · rfl
      · exact absurd ((contains_eq_mem _ _).mp hx) (hkey ▸ hmem)
    unfold chatStep
    simp only [chatTextContent]
    rw [if_pos (by simp [optTruthy])]
    rw [show optTruthy (some role) = true from by simp [optTruthy, hrole]]
    rw [if_pos rfl, if_pos htrim, if_pos htime, hcont]
    simp only [Bool.false_eq_true, if_false]
    repeat' split
    all_goals simp_all [isMsgEmission]

theorem C1_first_arrival_wins_witness :
    (ptyOutputStep (fun x => x)
        (⟨[("S", addSeenMessage sess0 "pty:S:A")], [], []⟩ : ManagerState)
        "S" (some "A") =
      ((⟨[("S", addSeenMessage sess0 "pty:S:A")], [], []⟩ : ManagerState), []))
    ∧ (ptyOutputStep (fun x => x) msA "S" (some "A") =
        ({ msA with
            sessions := mapSet msA.sessions "S" (addSeenMessage sess0 "pty:S:A") },
         [Emission.message "S" "assistant" (jsTrim "A")]))
    ∧ "pty:S:A" ∈ (addSeenMessage sess0 "pty:S:A").seenMessages
    ∧ ((chatStep (fun x => x) 0 (some "user") false none none
          (some ⟨some "user", some (Sum.inl "A")⟩)
          (addSeenMessage sess0 "pty:S:A", [])).2.filter isMsgEmission = [])
    ∧ ((chatStep (fun x => x) 0 (some "user") false none none
          (some ⟨some "user", some (Sum.inl "A")⟩)
          (sess0, [])).2.filter isMsgEmission =
        [Emission.message "S" "user" (jsTrim "A")]) := by
  obtain ⟨s1, s2, s3, s4, s5⟩ :=
    C1_first_arrival_wins (fun x => x) msA "S" "A" "pty:S:A" sess0 rfl
      (by decide) (by decide) (by decide)
  obtain ⟨t1, _, _, t4, _⟩ :=
    C1_first_arrival_wins (fun x => x)
      (⟨[("S", addSeenMessage sess0 "pty:S:A")], [], []⟩ : ManagerState)
      "S" "A" "pty:S:A" (addSeenMessage sess0 "pty:S:A")
      (by decide) (by decide) (by decide) (by decide)
  exact ⟨t1 (by decide), s2 (by decide),
    s3 ⟨rfl, List.nodup_nil, List.not_mem_nil _, by decide⟩ (by decide)
      (by decide),
    t4 0 none "user" (by decide),
    s5 0 none "user" (by decide) (by decide) (by decide)⟩

end SleepCode
